import Mathlib

/-!
# Verification of the cdocx package-tree and part-management subsystem

This file gives a shallow embedding, in Lean 4, of the core of the `cdocx`
library (a DOCX package manager written in C++): the package tree of typed
nodes (`DocxTree` / `DocxTreeNode`), the relationship index
(`DocumentImpl::add_relationship` / `remove_relationship`), the content-type
index (`DocumentImpl::update_content_types_xml`), the media manager
(`Document::add_media` and friends), and the open/save lifecycle
(`Document::open`, `DocumentImpl::save_to_zip`).

Modelling conventions:
* C++ `std::string` is modelled by `String` (file paths and XML names in this
  code are ASCII, so byte counts and character counts agree).
* Byte buffers (`std::vector<uint8_t>`) are modelled by `List Nat`.
* The pugixml XML library is external to the repository; XML documents are
  modelled by a small element/attribute tree `Xml`, and the parser
  `pugi::xml_document::load_buffer` is a parameter `parse` of the functions
  that call it (it either yields the list of root elements or fails).
* The package tree stores its file (non-directory) nodes; `DocxTree` keeps a
  `path_map_` from `full_path` to node, with at most one node per path, so the
  tree is modelled by its insertion-ordered list of file nodes keyed by
  `full_path`.  Directory nodes carry no payload and no flags that any of the
  verified operations observe.
* In-place mutation through a node pointer is modelled by rewriting the node
  with that `full_path` in the list.
* The filesystem touched by `save_to_zip` is an association list from path to
  file data, where file data is either raw bytes or a ZIP archive (a list of
  named entries); `zip_open(..., 'r')` succeeds exactly on archive values.
* Machine integers: `std::stoi` is modelled faithfully including its
  `out_of_range` behaviour (the C++ caller catches the exception and ignores
  the id), with the 32-bit `int` bounds written out explicitly.
-/

namespace Cdocx

/-! ## Decimal digits: `std::to_string` and `std::stoi` -/

/-- The character for a decimal digit `n < 10`, i.e. code point `48 + n`. -/
def digitChar (n : Nat) : Char := Char.ofNat (48 + n)

/-- Is `c` a decimal digit (`'0'`..`'9'`)?  Mirrors `isdigit` as used by
`std::stoi`. -/
def isDigitChar (c : Char) : Bool := 48 ≤ c.toNat ∧ c.toNat ≤ 57

/-- Is `c` whitespace in the `std::isspace` sense (skipped by `std::stoi`)? -/
def isCppSpace (c : Char) : Bool :=
  c.toNat = 32 ∨ c.toNat = 9 ∨ c.toNat = 10 ∨ c.toNat = 11 ∨ c.toNat = 12 ∨ c.toNat = 13

/-- Value of a digit string, most significant first (the accumulator loop of
`std::stoi`). -/
def digitsVal (ds : List Char) : Nat :=
  ds.foldl (fun a c => a * 10 + (c.toNat - 48)) 0

/-- Fuel-indexed digit expansion of a natural number (fuel makes the
definition structurally recursive, hence kernel-reducible). -/
def natToDecAux : Nat → Nat → List Char
  | 0, _ => []
  | fuel + 1, n =>
    if n < 10 then [digitChar n]
    else natToDecAux fuel (n / 10) ++ [digitChar (n % 10)]

/-- Decimal digits of `n`, most significant first; model of
`std::to_string` on a non-negative value. -/
def natToDec (n : Nat) : List Char := natToDecAux (n + 1) n

/-- Model of `std::to_string` on `int`. -/
def intToString (i : Int) : String :=
  if i < 0 then "-" ++ String.mk (natToDec (-i).toNat)
  else String.mk (natToDec i.toNat)

/-- Model of `std::stoi`: skip whitespace, optional sign, at least one digit
(else `invalid_argument`), stop at the first non-digit, and fail with
`out_of_range` (here: `none`) outside the 32-bit `int` range.  The C++ call
sites wrap `std::stoi` in `try`/`catch(...)`, so both failure modes collapse
to `none`. -/
def cppStoi (cs : List Char) : Option Int :=
  let cs1 := cs.dropWhile isCppSpace
  let neg : Bool := cs1.head? = some '-'
  let cs2 := if cs1.head? = some '-' ∨ cs1.head? = some '+' then cs1.tail else cs1
  let ds := cs2.takeWhile isDigitChar
  if ds = [] then none
  else
    let v : Int := if neg then -(digitsVal ds : Int) else (digitsVal ds : Int)
    if v < -2147483648 ∨ 2147483647 < v then none else some v

/-! ## Relationships (`struct Relationship`, `DocumentImpl::add_relationship`,
`DocumentImpl::remove_relationship`, `DocumentImpl::find_relationship_id`) -/

/-- `struct Relationship` from `cdocx_impl.h` (the C++ field `type` is named
`rtype` here). -/
structure Relationship where
  id : String
  rtype : String
  target : String
  target_mode : String
deriving DecidableEq, Repr

/-- The numeric suffix of a relationship id, as computed inside
`DocumentImpl::add_relationship`: requires `id.size() > 3` and prefix
`"rId"`, then `std::stoi` on the remainder (`none` when `std::stoi` throws
and the `catch` ignores the id). -/
def relIdNum (id : String) : Option Int :=
  if id.data.length > 3 ∧ id.data.take 3 = ['r', 'I', 'd'] then cppStoi (id.data.drop 3)
  else none

/-- One iteration of the `max_id` loop of `DocumentImpl::add_relationship`:
take the running maximum with the parsed suffix when it parses, else keep the
running value (the `catch (...) {}` case). -/
def relMaxStep (m : Int) (r : Relationship) : Int :=
  match relIdNum r.id with
  | some k => max m k
  | none => m

/-- The `max_id` loop of `DocumentImpl::add_relationship`: fold `max` of all
parsable `rId<N>` suffixes, starting from `0`. -/
def maxRelId (rels : List Relationship) : Int :=
  rels.foldl relMaxStep 0

/-- Body of `DocumentImpl::add_relationship` acting on the vector
`relationships_[rels_path]` of one relationship file: computes
`"rId" + std::to_string(max_id + 1)`, appends the new entry, and returns the
new id together with the updated vector. -/
def addRelationship (rels : List Relationship) (rtype target target_mode : String) :
    String × List Relationship :=
  let new_id := "rId" ++ intToString (maxRelId rels + 1)
  (new_id, rels ++ [⟨new_id, rtype, target, target_mode⟩])

/-- Body of `DocumentImpl::remove_relationship` on one file's vector: erase
the first entry whose id matches (no-op when absent). -/
def removeRelationship : List Relationship → String → List Relationship
  | [], _ => []
  | r :: rs, i => if r.id = i then rs else r :: removeRelationship rs i

/-- Body of `DocumentImpl::find_relationship_id` on one file's vector: id of
the first entry with the given target, `""` when none matches. -/
def findRelationshipId (rels : List Relationship) (target : String) : String :=
  match rels.find? (fun r => r.target = target) with
  | some r => r.id
  | none => ""

/-! ## XML documents (shallow model of the pugixml structures the code uses) -/

/-- An XML element: tag, attributes, child elements.  pugixml text/pcdata
nodes are not observed by any verified operation and are omitted. -/
inductive Xml where
  | elem (tag : String) (attrs : List (String × String)) (children : List Xml)
deriving Repr

/-- A parsed `pugi::xml_document` is its list of top-level element nodes. -/
abbrev XmlDoc := List Xml

def Xml.tag : Xml → String
  | .elem t _ _ => t

def Xml.attrs : Xml → List (String × String)
  | .elem _ a _ => a

def Xml.childList : Xml → List Xml
  | .elem _ _ cs => cs

/-- `pugi::xml_node::child(name)`: the first child element with the given
name, or the null node (`none`). -/
def Xml.child (x : Xml) (name : String) : Option Xml :=
  x.childList.find? (fun c => c.tag = name)

/-- `child` lifted to the null node (chained `.child(...)` calls on a possibly
null node yield the null node). -/
def xmlOptChild (x : Option Xml) (name : String) : Option Xml :=
  match x with
  | some e => e.child name
  | none => none

/-- `pugi::xml_document::child(name)`: first top-level element with the given
name. -/
def xmlDocChild (d : XmlDoc) (name : String) : Option Xml :=
  d.find? (fun c => c.tag = name)

/-- `pugi::xml_node::attribute(name).value()`: the attribute's value, or `""`
when absent. -/
def Xml.attr (x : Xml) (name : String) : String :=
  match x.attrs.find? (fun a => a.1 = name) with
  | some a => a.2
  | none => ""

/-- The node sequence traversed by the `Run`/`Paragraph`/`Table` iterator
pattern of `cdocx.cpp`: `set_parent(p)` positions `current` on
`p.child(tag)` (the first child element named `tag`), `next()` moves to
`current.next_sibling()` (any tag), `has_next()` is `current != 0`.  So the
iterator yields the suffix of `p`'s children starting at the first child
named `tag`, and is empty when there is none. -/
def iterSeq (children : List Xml) (tag : String) : List Xml :=
  children.dropWhile (fun c => c.tag ≠ tag)

mutual
/-- Serialize one XML element (model of `pugi::xml_document::print` via
`xml_string_writer`; the exact formatting is irrelevant to the claims, only
that each node yields some byte payload). -/
def renderXml : Xml → String
  | .elem t a cs =>
    "<" ++ t ++ String.join (a.map (fun p => " " ++ p.1 ++ "=" ++ p.2)) ++ ">"
      ++ renderXmlList cs ++ "</" ++ t ++ ">"

/-- Serialize a list of XML elements in order. -/
def renderXmlList : List Xml → String
  | [] => ""
  | x :: xs => renderXml x ++ renderXmlList xs
end

/-- Bytes of a string (one byte per ASCII character). -/
def strToBytes (s : String) : List Nat := s.data.map Char.toNat

/-- Bytes written for a whole XML document. -/
def renderXmlDoc (d : XmlDoc) : List Nat :=
  strToBytes (renderXmlList d)

/-! ## Package tree (`DocxNodeType`, `DocxTreeNode`, `DocxTree`) -/

/-- `enum class DocxNodeType` (the file kinds; `Root`/`Directory` nodes carry
no payload and are not observed by any verified operation, so the tree is
modelled by its file nodes, see the header comment). -/
inductive DocxNodeType where
  | XmlFile
  | MediaFile
  | BinaryFile
deriving DecidableEq, Repr

/-- `struct DocxTreeNode` (file nodes; the C++ field `type` is named `ntype`
here). -/
structure Node where
  full_path : String
  ntype : DocxNodeType
  xml_doc : Option XmlDoc
  binary_data : List Nat
  content_type : String
  is_modified : Bool
  is_new : Bool
  is_deleted : Bool
deriving Repr

/-- A freshly constructed `DocxTreeNode` (all flags false, no payload), as
built by `DocxTree::find_or_create_node` for a missing path. -/
def newNode (path : String) (t : DocxNodeType) : Node :=
  { full_path := path
    ntype := t
    xml_doc := none
    binary_data := []
    content_type := ""
    is_modified := false
    is_new := false
    is_deleted := false }

/-- The tree, modelled by its insertion-ordered file nodes (unique
`full_path` per node, maintained by `path_map_`). -/
abbrev Tree := List Node

/-- `DocxTree::find_node(path)`: lookup through `path_map_`. -/
def findNode (t : Tree) (path : String) : Option Node :=
  t.find? (fun n => n.full_path = path)

/-- In-place mutation of the node with the given path (writing through the
`shared_ptr` returned by a lookup); no-op when the path is absent. -/
def updateNode (t : Tree) (path : String) (f : Node → Node) : Tree :=
  t.map (fun n => if n.full_path = path then f n else n)

/-- `DocxTree::find_or_create_node(path, type)`: return the tree unchanged if
the path exists (the type argument is ignored on a hit), else append a fresh
node of the given type (intermediate directory creation is not observable in
the file-node model). -/
def findOrCreateNode (t : Tree) (path : String) (ty : DocxNodeType) : Tree :=
  match findNode t path with
  | some _ => t
  | none => t ++ [newNode path ty]

/-- The path classification performed at the top of
`DocxTree::add_zip_entry`: `.xml` and `.rels` suffixes are XML parts, the
`word/media/` prefix is media, everything else is binary. -/
def classify (p : String) : DocxNodeType :=
  if p.length > 4 ∧ p.data.drop (p.data.length - 4) = ".xml".data then .XmlFile
  else if p.length > 5 ∧ p.data.drop (p.data.length - 5) = ".rels".data then .XmlFile
  else if p.data.take 11 = "word/media/".data then .MediaFile
  else .BinaryFile

/-- The payload assignment of `DocxTree::add_zip_entry` once the node exists:
for an XML-classified entry, try `load_buffer`; on success store the parsed
document (keeping the original bytes), on failure downgrade the node to
`BinaryFile` and keep only the raw bytes.  Non-XML entries store raw
bytes. -/
def payloadUpdate (parse : List Nat → Option XmlDoc) (ty : DocxNodeType)
    (data : List Nat) (n : Node) : Node :=
  if ty = .XmlFile then
    match parse data with
    | some d => { n with xml_doc := some d, binary_data := data }
    | none => { n with ntype := .BinaryFile, binary_data := data }
  else { n with binary_data := data }

/-- `DocxTree::add_zip_entry(entry_path, data)`, parameterized by the
external XML parser: classify, find-or-create, store payload; returns the
updated tree and the resulting node. -/
def addZipEntry (parse : List Nat → Option XmlDoc) (t : Tree)
    (path : String) (data : List Nat) : Tree × Node :=
  let ty := classify path
  let t1 := findOrCreateNode t path ty
  let t2 := updateNode t1 path (payloadUpdate parse ty data)
  (t2, (findNode t2 path).getD (newNode path ty))

/-- `DocxTree::add_media_file(path, data, content_type)`: find-or-create a
`MediaFile` node and store bytes and MIME type. -/
def addMediaFile (t : Tree) (path : String) (data : List Nat)
    (content_type : String) : Tree :=
  updateNode (findOrCreateNode t path .MediaFile) path
    (fun n => { n with binary_data := data, content_type := content_type })

/-- `DocxTree::remove_node(path)`: tombstone the node, `false` when the path
is absent. -/
def removeNode (t : Tree) (path : String) : Bool × Tree :=
  match findNode t path with
  | some _ => (true, updateNode t path (fun n => { n with is_deleted := true }))
  | none => (false, t)

/-! ## Small container helpers (models of `std::map` / `std::set` as used) -/

/-- `std::map` lookup on an association list with unique keys. -/
def lookupAssoc {α : Type} (m : List (String × α)) (k : String) : Option α :=
  (m.find? (fun e => e.1 = k)).map (fun e => e.2)

/-- `std::map` insert-or-assign on an association list with unique keys. -/
def setAssoc {α : Type} (m : List (String × α)) (k : String) (v : α) : List (String × α) :=
  if (m.find? (fun e => e.1 = k)).isSome then
    m.map (fun e => if e.1 = k then (k, v) else e)
  else m ++ [(k, v)]

/-- `std::set<std::string>::insert`. -/
def insertSet (s : List String) (k : String) : List String :=
  if k ∈ s then s else s ++ [k]

/-- `std::set<std::string>::erase` / `std::map::erase` by key. -/
def eraseSet (s : List String) (k : String) : List String :=
  s.filter (fun x => x ≠ k)

/-- C++ `s.find(pat) != std::string::npos`: does `pat` occur as a contiguous
substring of `s`? -/
def strContains (s pat : String) : Bool :=
  (List.range (s.data.length + 1)).any (fun i => (s.data.drop i).take pat.data.length = pat.data)

/-! ## Filesystem-path helpers (`std::filesystem::path` as used by the media
manager) -/

/-- `std::filesystem::path::filename()`: the component after the last `/`. -/
def filenameOf (p : String) : String :=
  String.mk ((p.data.reverse.takeWhile (fun c => c ≠ '/')).reverse)

/-- `std::filesystem::path::extension()`: from the last dot of the filename
(inclusive); empty for dotless names, for `.` / `..`, and for a leading-dot
filename whose only dot is the first character. -/
def extensionOf (p : String) : String :=
  let f := (filenameOf p).data
  if f = ['.'] ∨ f = ['.', '.'] then ""
  else
    let afterRev := f.reverse.takeWhile (fun c => c ≠ '.')
    if afterRev.length = f.length then ""
    else if afterRev.length + 1 = f.length then ""
    else String.mk ('.' :: afterRev.reverse)

/-- `std::filesystem::path::stem()`: the filename with `extension()`
removed. -/
def stemOf (p : String) : String :=
  let f := (filenameOf p).data
  String.mk (f.take (f.length - (extensionOf p).data.length))

/-- The characters after the last `.` of a string, or `none` when it has no
dot (`std::string::rfind('.')` as used by `DocumentImpl::get_mime_type`). -/
def afterLastDot (s : String) : Option String :=
  if '.' ∈ s.data then some (String.mk ((s.data.reverse.takeWhile (fun c => c ≠ '.')).reverse))
  else none

/-- `DocumentImpl::get_mime_type(filename)`. -/
def getMimeType (filename : String) : String :=
  match afterLastDot filename with
  | none => "application/octet-stream"
  | some e =>
    let ext := String.mk (e.data.map Char.toLower)
    if ext = "png" then "image/png"
    else if ext = "jpg" ∨ ext = "jpeg" then "image/jpeg"
    else if ext = "gif" then "image/gif"
    else if ext = "bmp" then "image/bmp"
    else if ext = "tiff" ∨ ext = "tif" then "image/tiff"
    else if ext = "webp" then "image/webp"
    else if ext = "svg" then "image/svg+xml"
    else "application/octet-stream"

/-- `Document::validate_image_format(image_path)`: lowercased extension must
be a recognized image extension. -/
def validateImageFormat (image_path : String) : Bool :=
  let ext := String.mk ((extensionOf image_path).data.map Char.toLower)
  ext = ".png" ∨ ext = ".jpg" ∨ ext = ".jpeg" ∨ ext = ".gif" ∨ ext = ".bmp" ∨
    ext = ".tiff" ∨ ext = ".tif" ∨ ext = ".webp"

/-! ## `ContentType` entries and the `DocumentImpl` state -/

/-- `struct ContentType` from `cdocx_impl.h`. -/
structure ContentType where
  extension : String
  part_name : String
  content_type : String
  is_default : Bool
deriving DecidableEq, Repr

/-- The `DocumentImpl` state (`cdocx_impl.h`); the ZIP handle is transient
and not part of the observable state, caches hold the keys of the
`std::map<std::string, shared_ptr<DocxTreeNode>>` caches. -/
structure Impl where
  filepath_ : String
  is_open_ : Bool
  tree_ : Tree
  xml_parts_cache_ : List String
  media_files_cache_ : List String
  relationships_ : List (String × List Relationship)
  modified_parts_ : List String
  content_types_ : List ContentType
deriving Repr

/-- `DocumentImpl::add_relationship(rels_path, type, target, target_mode)`:
`relationships_[rels_path]` default-constructs an empty vector for a new key;
the new file is marked dirty in `modified_parts_`. -/
def implAddRelationship (impl : Impl) (rels_path rtype target target_mode : String) :
    String × Impl :=
  let rels := (lookupAssoc impl.relationships_ rels_path).getD []
  let r := addRelationship rels rtype target target_mode
  (r.1, { impl with
            relationships_ := setAssoc impl.relationships_ rels_path r.2
            modified_parts_ := insertSet impl.modified_parts_ rels_path })

/-- `DocumentImpl::remove_relationship(rels_path, rel_id)`: no-op when the
file or the id is unknown; on a hit, erase the first match and mark the file
dirty. -/
def implRemoveRelationship (impl : Impl) (rels_path rel_id : String) : Impl :=
  match lookupAssoc impl.relationships_ rels_path with
  | none => impl
  | some rels =>
    if rels.any (fun r => r.id = rel_id) then
      { impl with
          relationships_ := setAssoc impl.relationships_ rels_path (removeRelationship rels rel_id)
          modified_parts_ := insertSet impl.modified_parts_ rels_path }
    else impl

/-- `DocumentImpl::find_relationship_id(rels_path, target)` at the state
level (`""` when the file is unknown). -/
def implFindRelationshipId (impl : Impl) (rels_path target : String) : String :=
  findRelationshipId ((lookupAssoc impl.relationships_ rels_path).getD []) target

/-- `DocumentImpl::add_content_type_override(part_name, content_type)`:
first writer wins — no-op when an Override for that exact part name
exists. -/
def addContentTypeOverride (cts : List ContentType) (part_name content_type : String) :
    List ContentType :=
  if cts.any (fun ct => !ct.is_default ∧ ct.part_name = part_name) then cts
  else cts ++ [⟨"", part_name, content_type, false⟩]

/-! ## XML-parts API (`Document::has_xml_part`, `get_all_part_names`,
`remove_xml_part`, `get_xml_part`) -/

/-- `Document::get_xml_part(part_path)`: the parsed document when the node
exists and holds one, else null. -/
def getXmlPart (impl : Impl) (part_path : String) : Option XmlDoc :=
  match findNode impl.tree_ part_path with
  | some n => n.xml_doc
  | none => none

/-- `Document::has_xml_part(part_path)`: node exists and its type is
`XmlFile` (the tombstone flag is not consulted). -/
def hasXmlPart (impl : Impl) (part_path : String) : Bool :=
  match findNode impl.tree_ part_path with
  | some n => n.ntype = .XmlFile
  | none => false

/-- `Document::get_all_part_names()`: full paths of every `XmlFile` node in
the tree (deleted or not). -/
def getAllPartNames (impl : Impl) : List String :=
  impl.tree_.filterMap (fun n => if n.ntype = .XmlFile then some n.full_path else none)

/-- `Document::remove_xml_part(part_path)`: tombstone the node (no-op on the
tree when absent) and drop the path from both bookkeeping containers. -/
def removeXmlPart (impl : Impl) (part_path : String) : Impl :=
  { impl with
      tree_ := updateNode impl.tree_ part_path (fun n => { n with is_deleted := true })
      xml_parts_cache_ := eraseSet impl.xml_parts_cache_ part_path
      modified_parts_ := eraseSet impl.modified_parts_ part_path }

/-! ## Media manager (`Document::add_media`, `add_media_from_memory`,
`delete_media`, `has_media`, `list_media`, `generate_unique_image_name`) -/

/-- A source image file on disk: `contents = none` models a missing or
unreadable file (`std::filesystem::exists` false, or `ifstream` open
failure). -/
structure SourceFile where
  path : String
  contents : Option (List Nat)

/-- `Document::has_media(image_name)`: open, node present under
`word/media/`, and not tombstoned. -/
def hasMedia (impl : Impl) (image_name : String) : Bool :=
  if !impl.is_open_ then false
  else
    match findNode impl.tree_ ("word/media/" ++ image_name) with
    | some n => !n.is_deleted
    | none => false

/-- The `while (has_media(name))` loop of
`Document::generate_unique_image_name`, with explicit fuel (the C++ loop
terminates because the finitely many media nodes cannot occupy every
candidate name; the fuel used below is sufficient for every reachable
state). -/
def generateUniqueAux (impl : Impl) (stem ext : String) :
    Nat → String → Nat → String
  | 0, name, _ => name
  | fuel + 1, name, counter =>
    if hasMedia impl name then
      generateUniqueAux impl stem ext fuel
        (stem ++ "_" ++ String.mk (natToDec counter) ++ ext) (counter + 1)
    else name

/-- `Document::generate_unique_image_name(base_name)`. -/
def generateUniqueImageName (impl : Impl) (base_name : String) : String :=
  generateUniqueAux impl (stemOf base_name) (extensionOf base_name)
    (impl.tree_.length + 1) base_name 1

/-- `Document::list_media()`: names (paths with the `word/media/` prefix
stripped) of live `MediaFile` nodes. -/
def listMedia (impl : Impl) : List String :=
  impl.tree_.filterMap (fun n =>
    if n.ntype = .MediaFile ∧ !n.is_deleted ∧ n.full_path.data.take 11 = "word/media/".data
    then some (String.mk (n.full_path.data.drop 11))
    else none)

/-- The filename `Document::add_media` starts from: the explicit name when
one is given and non-empty, else the source file's filename. -/
def addMediaFilename0 (src : SourceFile) (image_name : Option String) : String :=
  match image_name with
  | some s => if s = "" then filenameOf src.path else s
  | none => filenameOf src.path

/-- The destination-name step of `Document::add_media`: deduplicate only
when a node (tombstoned or not) already sits at the destination path. -/
def addMediaName (impl : Impl) (filename0 : String) : String :=
  if (findNode impl.tree_ ("word/media/" ++ filename0)).isSome then
    generateUniqueImageName impl filename0
  else filename0

/-- The mutation tail shared by `Document::add_media` and
`Document::add_media_from_memory`: `DocxTree::add_media_file`, then the
`is_new`/`is_modified` flags, the media cache entry, and the content-type
override. -/
def mediaIngest (impl : Impl) (media_path : String) (data : List Nat) (ct : String) :
    Impl :=
  { impl with
      tree_ := updateNode (addMediaFile impl.tree_ media_path data ct) media_path
        (fun n => { n with is_new := true, is_modified := true })
      media_files_cache_ := insertSet impl.media_files_cache_ media_path
      content_types_ := addContentTypeOverride impl.content_types_ ("/" ++ media_path) ct }

/-- `Document::add_media(image_path, image_name)` (the C++ method computes
the destination name before reading the file; both are pure here, so the
empty-read check is stated before the name computation without changing any
observable behavior). -/
def addMedia (impl : Impl) (src : SourceFile) (image_name : Option String) :
    Bool × Impl :=
  if !impl.is_open_ then (false, impl)
  else if src.contents.isNone then (false, impl)
  else if !validateImageFormat src.path then (false, impl)
  else if src.contents.getD [] = [] then (false, impl)
  else
    (true, mediaIngest impl
      ("word/media/" ++ addMediaName impl (addMediaFilename0 src image_name))
      (src.contents.getD [])
      (getMimeType (addMediaName impl (addMediaFilename0 src image_name))))

/-- `Document::add_media_from_memory(name, data, content_type)` (no name
deduplication; an existing node at the destination path — tombstoned or not —
is overwritten in place). -/
def addMediaFromMemory (impl : Impl) (name : String) (data : List Nat)
    (content_type : String) : Bool × Impl :=
  if !impl.is_open_ then (false, impl)
  else if data = [] then (false, impl)
  else
    (true, mediaIngest impl ("word/media/" ++ name) data
      (if content_type = "" then getMimeType name else content_type))

/-- The relationship-removal step of `Document::delete_media`: look up the
image relationship by target and remove it when present. -/
def deleteMediaRels (impl1 : Impl) (image_name : String) : Impl :=
  if implFindRelationshipId impl1 "word/_rels/document.xml.rels"
      ("media/" ++ image_name) ≠ "" then
    implRemoveRelationship impl1 "word/_rels/document.xml.rels"
      (implFindRelationshipId impl1 "word/_rels/document.xml.rels" ("media/" ++ image_name))
  else impl1

/-- The tail of `Document::delete_media` after the node was found and
tombstoned: relationship removal, then the cache erase. -/
def deleteMediaFinish (impl1 : Impl) (image_name : String) : Impl :=
  { deleteMediaRels impl1 image_name with
      media_files_cache_ := eraseSet (deleteMediaRels impl1 image_name).media_files_cache_
        ("word/media/" ++ image_name) }

/-- `Document::delete_media(image_name)`: tombstone the node, remove the
matching image relationship of the main document (when one exists), and drop
the cache entry. -/
def deleteMedia (impl : Impl) (image_name : String) : Bool × Impl :=
  if !impl.is_open_ then (false, impl)
  else
    match findNode impl.tree_ ("word/media/" ++ image_name) with
    | none => (false, impl)
    | some _ =>
      (true, deleteMediaFinish
        { impl with
            tree_ := updateNode impl.tree_ ("word/media/" ++ image_name)
              (fun n => { n with is_deleted := true }) }
        image_name)

/-! ## Content-type serialization (`DocumentImpl::update_content_types_xml`) -/

/-- One `<Default>` or `<Override>` element of the rebuilt
`[Content_Types].xml`. -/
inductive CTEntry where
  | Default (extension content_type : String)
  | Override (part_name content_type : String)
deriving DecidableEq, Repr

/-- The first loop of `update_content_types_xml`: emit each `Default` entry
whose extension was not yet emitted (`added_extensions` accumulates the seen
extensions). -/
def defaultsSection : List ContentType → List String → List CTEntry
  | [], _ => []
  | ct :: rest, seen =>
    if ct.is_default then
      if ct.extension ∈ seen then defaultsSection rest seen
      else .Default ct.extension ct.content_type :: defaultsSection rest (ct.extension :: seen)
    else defaultsSection rest seen

/-- The second loop of `update_content_types_xml`: every non-default entry
becomes an `Override`. -/
def overridesSection (cts : List ContentType) : List CTEntry :=
  cts.filterMap (fun ct =>
    if !ct.is_default then some (.Override ct.part_name ct.content_type) else none)

/-- The best-guess content type synthesized by the tree walk of
`update_content_types_xml` for a node with no matching Override
(filename-substring heuristics, media MIME fallback, `application/xml`
default). -/
def synthContentType (n : Node) : String :=
  if strContains n.full_path "word/document.xml" then
    "application/vnd.openxmlformats-officedocument.wordprocessingml.document.main+xml"
  else if strContains n.full_path "styles.xml" then
    "application/vnd.openxmlformats-officedocument.wordprocessingml.styles+xml"
  else if strContains n.full_path "settings.xml" then
    "application/vnd.openxmlformats-officedocument.wordprocessingml.settings+xml"
  else if strContains n.full_path "rels" then
    "application/vnd.openxmlformats-package.relationships+xml"
  else if n.ntype = .MediaFile then
    if n.content_type = "" then "image/png" else n.content_type
  else "application/xml"

/-- The tree walk of `update_content_types_xml`: every file node (the
tombstone flag is not consulted) other than `[Content_Types].xml` itself
that has no matching Override in `content_types_` (Defaults are not
consulted) receives a synthesized Override. -/
def synthSection (cts : List ContentType) (t : Tree) : List CTEntry :=
  t.filterMap (fun n =>
    if n.full_path = "[Content_Types].xml" then none
    else if cts.any (fun ct => !ct.is_default ∧ ct.part_name = "/" ++ n.full_path) then none
    else some (.Override ("/" ++ n.full_path) (synthContentType n)))

/-- The complete entry list of the rebuilt `[Content_Types].xml` payload. -/
def updateContentTypesEntries (cts : List ContentType) (t : Tree) : List CTEntry :=
  defaultsSection cts [] ++ overridesSection cts ++ synthSection cts t

/-- Entry to XML element. -/
def ctEntryToXml : CTEntry → Xml
  | .Default e c => .elem "Default" [("Extension", e), ("ContentType", c)] []
  | .Override p c => .elem "Override" [("PartName", p), ("ContentType", c)] []

/-- The rebuilt `[Content_Types].xml` document. -/
def typesXml (cts : List ContentType) (t : Tree) : XmlDoc :=
  [.elem "Types"
    [("xmlns", "http://schemas.openxmlformats.org/package/2006/content-types")]
    ((updateContentTypesEntries cts t).map ctEntryToXml)]

/-- `DocumentImpl::update_content_types_xml()`: find-or-create the
`[Content_Types].xml` node and replace its payload with the rebuilt
document (both explicit loops and the tree walk run over the tree that
already contains this node; the node itself is skipped by the walk). -/
def updateContentTypesXml (impl : Impl) : Impl :=
  let t1 := findOrCreateNode impl.tree_ "[Content_Types].xml" .XmlFile
  { impl with
      tree_ := updateNode t1 "[Content_Types].xml"
        (fun n => { n with xml_doc := some (typesXml impl.content_types_ t1) }) }

/-! ## Relationship serialization (`DocumentImpl::update_relationships_xml`) -/

/-- The rebuilt payload of one relationship file. -/
def relsToXml (rels : List Relationship) : XmlDoc :=
  [.elem "Relationships"
    [("xmlns", "http://schemas.openxmlformats.org/package/2006/relationships")]
    (rels.map (fun r => .elem "Relationship"
      ([("Id", r.id), ("Type", r.rtype), ("Target", r.target)] ++
        (if r.target_mode ≠ "" then [("TargetMode", r.target_mode)] else [])) []))]

/-- `DocumentImpl::update_relationships_xml(rels_path)`: no-op for an unknown
file; otherwise find-or-create the node and replace its payload. -/
def updateRelationshipsXml (impl : Impl) (rels_path : String) : Impl :=
  match lookupAssoc impl.relationships_ rels_path with
  | none => impl
  | some rels =>
    let t1 := findOrCreateNode impl.tree_ rels_path .XmlFile
    { impl with
        tree_ := updateNode t1 rels_path (fun n => { n with xml_doc := some (relsToXml rels) }) }

/-! ## Save pipeline (`DocumentImpl::write_tree_node`, `save_tree_to_zip`,
`save_to_zip`, `Document::save`) -/

/-- Payload written by `DocumentImpl::write_tree_node`: a parsed XML node is
serialized, otherwise the raw bytes are written (an empty buffer yields an
empty entry). -/
def writeNodeBytes (n : Node) : List Nat :=
  if n.ntype = .XmlFile ∧ n.xml_doc.isSome then renderXmlDoc (n.xml_doc.getD [])
  else n.binary_data

/-- `DocumentImpl::save_tree_to_zip`: entries written to the fresh archive —
every non-tombstoned file node. -/
def saveTreeEntries (t : Tree) : List (String × List Nat) :=
  (t.filter (fun n => !n.is_deleted)).map (fun n => (n.full_path, writeNodeBytes n))

/-- A file on disk: raw bytes, or a ZIP archive of named entries
(`zip_open(path, ..., 'r')` succeeds exactly on the latter). -/
inductive FileData where
  | raw (bytes : List Nat)
  | zipArchive (entries : List (String × List Nat))
deriving Repr

/-- The filesystem: an association list from path to file data. -/
abbrev FS := List (String × FileData)

def fsLookup (fs : FS) (p : String) : Option FileData :=
  lookupAssoc fs p

def fsSet (fs : FS) (p : String) (d : FileData) : FS :=
  setAssoc fs p d

def fsRemove (fs : FS) (p : String) : FS :=
  fs.filter (fun e => e.1 ≠ p)

/-- The environment failures `save_to_zip` reacts to: `zip_open(..., 'w')`
returning null, a `zip_entry_open`/`zip_entry_write` failure during the tree
walk, and `std::filesystem::rename` throwing. -/
structure Env where
  zipOpenWFails : Bool
  writeFails : Bool
  renameFails : Bool
deriving Repr

/-- `DocumentImpl::save_to_zip(output_path)`: build a fresh archive at
`output_path + ".tmp"`; on a build failure discard the temp file and report
failure; otherwise, when saving over the document's own existing file,
delete the original first, then rename the temp file onto the destination
(discarding the temp file when the rename throws). -/
def saveToZip (env : Env) (fs : FS) (impl : Impl) (output_path : String) :
    Bool × FS :=
  let temp_path := output_path ++ ".tmp"
  if env.zipOpenWFails then (false, fs)
  else
    let fs1 := fsSet fs temp_path (.zipArchive (saveTreeEntries impl.tree_))
    if env.writeFails then (false, fsRemove fs1 temp_path)
    else
      let fs2 :=
        if output_path = impl.filepath_ ∧ (fsLookup fs1 impl.filepath_).isSome then
          fsRemove fs1 impl.filepath_
        else fs1
      if env.renameFails then (false, fsRemove fs2 temp_path)
      else
        let d := (fsLookup fs2 temp_path).getD (.zipArchive (saveTreeEntries impl.tree_))
        (true, fsSet (fsRemove fs2 temp_path) output_path d)

/-- `Document::save(filepath)`: no-op when closed; serialize every known
relationship file and the content-type index into their tree nodes, then
`save_to_zip`; on success clear the `is_modified`/`is_new` flags and the
dirty set.  The returned `Bool` exposes the internal `save_to_zip` result
for specification purposes (the C++ method returns `void`). -/
def docSave (env : Env) (fs : FS) (impl : Impl) (output_path : String) :
    Bool × FS × Impl :=
  if !impl.is_open_ then (false, fs, impl)
  else
    let impl1 := impl.relationships_.foldl (fun acc kv => updateRelationshipsXml acc kv.1) impl
    let impl2 := updateContentTypesXml impl1
    let r := saveToZip env fs impl2 output_path
    if r.1 then
      (true, r.2,
        { impl2 with
            tree_ := impl2.tree_.map (fun n => { n with is_modified := false, is_new := false })
            modified_parts_ := [] })
    else (false, r.2, impl2)

/-! ## Open pipeline (`Document::open`, `Document::close`,
`DocumentImpl::load_tree_from_zip`, `build_caches_from_tree`,
`load_all_relationships`, `load_content_types`) -/

/-- `Document::close()`: release the tree, the caches, both indices. -/
def closeDoc (impl : Impl) : Impl :=
  { impl with
      tree_ := []
      xml_parts_cache_ := []
      media_files_cache_ := []
      relationships_ := []
      modified_parts_ := []
      content_types_ := []
      is_open_ := false }

/-- `DocumentImpl::load_tree_from_zip()`: ingest every archive entry in
order, skipping directories (trailing `/` or empty name) and entries whose
read yields no bytes. -/
def loadTreeFromZip (parse : List Nat → Option XmlDoc)
    (entries : List (String × List Nat)) : Tree :=
  entries.foldl
    (fun t e =>
      if e.1 = "" ∨ e.1.data.getLast? = some '/' then t
      else if e.2 = [] then t
      else (addZipEntry parse t e.1 e.2).1)
    []

/-- `DocumentImpl::build_caches_from_tree()`, XML half: paths of `XmlFile`
nodes holding a parsed document. -/
def buildCachesXml (t : Tree) : List String :=
  t.filterMap (fun n =>
    if n.ntype = .XmlFile ∧ n.xml_doc.isSome then some n.full_path else none)

/-- `DocumentImpl::build_caches_from_tree()`, media half. -/
def buildCachesMedia (t : Tree) : List String :=
  t.filterMap (fun n => if n.ntype = .MediaFile then some n.full_path else none)

/-- `DocumentImpl::parse_relationships`, reading one parsed `.rels`
document. -/
def parseRelationshipsDoc (d : XmlDoc) : List Relationship :=
  match xmlDocChild d "Relationships" with
  | none => []
  | some root =>
    (root.childList.filter (fun c => c.tag = "Relationship")).map
      (fun c => ⟨c.attr "Id", c.attr "Type", c.attr "Target", c.attr "TargetMode"⟩)

/-- `DocumentImpl::load_all_relationships()`: parse every `XmlFile` node
whose path contains `.rels` and holds a parsed document. -/
def loadAllRelationships (t : Tree) : List (String × List Relationship) :=
  (t.filter (fun n => n.ntype = .XmlFile ∧ strContains n.full_path ".rels")).foldl
    (fun m n =>
      match n.xml_doc with
      | some d => setAssoc m n.full_path (parseRelationshipsDoc d)
      | none => m)
    []

/-- `DocumentImpl::load_content_types()`: read the `Default` and `Override`
children of the `Types` root (empty when the part is missing or
unparsed). -/
def loadContentTypes (t : Tree) : List ContentType :=
  match findNode t "[Content_Types].xml" with
  | none => []
  | some n =>
    match n.xml_doc with
    | none => []
    | some d =>
      let cs :=
        match xmlDocChild d "Types" with
        | some x => x.childList
        | none => []
      (cs.filter (fun c => c.tag = "Default")).map
          (fun c => (⟨c.attr "Extension", "", c.attr "ContentType", true⟩ : ContentType))
        ++ (cs.filter (fun c => c.tag = "Override")).map
          (fun c => (⟨"", c.attr "PartName", c.attr "ContentType", false⟩ : ContentType))

/-- `Document::open(filepath)`: close, then read the archive; when the path
does not name a readable ZIP archive the document stays closed.  When it
does, the whole archive is ingested, caches and indices rebuilt, and the
document reports open — `load_tree_from_zip` fails only on a null handle or
a negative entry count, neither of which a readable archive produces. -/
def docOpen (parse : List Nat → Option XmlDoc) (fs : FS) (impl : Impl)
    (filepath : String) : Impl :=
  let impl0 := { closeDoc impl with filepath_ := filepath }
  match fsLookup fs filepath with
  | some (.zipArchive es) =>
    let t := loadTreeFromZip parse es
    { impl0 with
        tree_ := t
        xml_parts_cache_ := buildCachesXml t
        media_files_cache_ := buildCachesMedia t
        relationships_ := loadAllRelationships t
        content_types_ := loadContentTypes t
        is_open_ := true }
  | _ => impl0

/-! ## Content iterators (`Document::paragraphs`, `Document::tables`) -/

/-- The sequence of nodes traversed by the iterator `Document::paragraphs()`
returns: empty when the document is closed, the main part is absent or
unparsed, or `w:document`/`w:body` is missing; otherwise the body's children
from the first `w:p` on. -/
def paragraphsSeq (impl : Impl) : List Xml :=
  if !impl.is_open_ then []
  else
    match getXmlPart impl "word/document.xml" with
    | none => []
    | some d =>
      match xmlOptChild (xmlDocChild d "w:document") "w:body" with
      | none => []
      | some body => iterSeq body.childList "w:p"

/-- Same for `Document::tables()` (first `w:tbl` child). -/
def tablesSeq (impl : Impl) : List Xml :=
  if !impl.is_open_ then []
  else
    match getXmlPart impl "word/document.xml" with
    | none => []
    | some d =>
      match xmlOptChild (xmlDocChild d "w:document") "w:body" with
      | none => []
      | some body => iterSeq body.childList "w:tbl"

/-! ## Auxiliary definitions used by the verification -/

/-- A sequence of `add_relationship` calls against one relationship file
(arguments: type, target, target mode); returns the ids in call order and the
final vector. -/
def runAdds : List Relationship → List (String × String × String) →
    List String × List Relationship
  | rels, [] => ([], rels)
  | rels, p :: ps =>
    let r := addRelationship rels p.1 p.2.1 p.2.2
    let rest := runAdds r.2 ps
    (r.1 :: rest.1, rest.2)

/-- Spec-side notion (C4): the path has a matching `Default` content-type
entry, i.e. some Default's extension equals the path's extension
(case-insensitively, as in `DocumentImpl::get_content_type`). -/
def specHasMatchingDefault (cts : List ContentType) (path : String) : Bool :=
  match afterLastDot path with
  | some e =>
    cts.any (fun ct =>
      ct.is_default ∧
        String.mk (ct.extension.data.map Char.toLower) =
          String.mk (e.data.map Char.toLower))
  | none => false

/-- A default-constructed `DocumentImpl` (closed, everything empty). -/
def initImpl : Impl :=
  { filepath_ := ""
    is_open_ := false
    tree_ := []
    xml_parts_cache_ := []
    media_files_cache_ := []
    relationships_ := []
    modified_parts_ := []
    content_types_ := [] }

/-- The environment in which every filesystem operation succeeds. -/
def envOk : Env := { zipOpenWFails := false, writeFails := false, renameFails := false }

/-- Invariant used for tombstone-exclusion proofs: some node sits at `p` and
every node at `p` is tombstoned. -/
def Tombstoned (t : Tree) (p : String) : Prop :=
  (findNode t p).isSome = true ∧ ∀ n ∈ t, n.full_path = p → n.is_deleted = true

/-- The node `Document::add_media` leaves in the tree when the destination
`word/media/<nm>` was previously vacant. -/
def mediaNode (nm : String) (data : List Nat) : Node :=
  { full_path := "word/media/" ++ nm
    ntype := .MediaFile
    xml_doc := none
    binary_data := data
    content_type := getMimeType nm
    is_modified := true
    is_new := true
    is_deleted := false }

/-! # Verification

General lemmas first, then one theorem per claim, each with the witness or
counterexample its status requires. -/

/-! ## Decimal round-trip lemmas -/

theorem digitsVal_append_single (ds : List Char) (c : Char) :
    digitsVal (ds ++ [c]) = digitsVal ds * 10 + (c.toNat - 48) := by
  simp [digitsVal, List.foldl_append]

theorem digitChar_spec (n : Nat) (h : n < 10) :
    isDigitChar (digitChar n) = true ∧ (digitChar n).toNat = 48 + n := by
  interval_cases n <;> exact ⟨by decide, by decide⟩

theorem natToDecAux_spec (fuel : Nat) :
    ∀ n : Nat, n < fuel →
      natToDecAux fuel n ≠ [] ∧ (∀ c ∈ natToDecAux fuel n, isDigitChar c = true) ∧
        digitsVal (natToDecAux fuel n) = n := by
  induction fuel with
  | zero => intro n h; omega
  | succ fuel ih =>
    intro n h
    by_cases h10 : n < 10
    · obtain ⟨hd, hv⟩ := digitChar_spec n h10
      refine ⟨by simp [natToDecAux, h10], ?_, ?_⟩
      · intro c hc
        simp [natToDecAux, h10] at hc
        subst hc
        exact hd
      · simp [natToDecAux, h10, digitsVal]
        omega
    · have hdiv : n / 10 < fuel := by
        have := Nat.div_lt_self (show 0 < n by omega) (show 1 < 10 by norm_num)
        omega
      obtain ⟨hne, hdig, hval⟩ := ih (n / 10) hdiv
      obtain ⟨hd2, hv2⟩ := digitChar_spec (n % 10) (Nat.mod_lt _ (by norm_num))
      have heq : natToDecAux (fuel + 1) n = natToDecAux fuel (n / 10) ++ [digitChar (n % 10)] := by
        simp [natToDecAux, h10]
      refine ⟨by simp [heq], ?_, ?_⟩
      · intro c hc
        rw [heq] at hc
        rcases List.mem_append.mp hc with hc | hc
        · exact hdig c hc
        · rw [List.mem_singleton] at hc
          subst hc
          exact hd2
      · rw [heq, digitsVal_append_single, hval, hv2]
        omega

theorem natToDec_spec (n : Nat) :
    natToDec n ≠ [] ∧ (∀ c ∈ natToDec n, isDigitChar c = true) ∧
      digitsVal (natToDec n) = n :=
  natToDecAux_spec (n + 1) n (Nat.lt_succ_self n)

theorem isCppSpace_of_digit {c : Char} (h : isDigitChar c = true) :
    isCppSpace c = false := by
  simp only [isDigitChar, decide_eq_true_eq] at h
  simp only [isCppSpace, decide_eq_false_iff_not]
  omega

theorem dropWhile_space_of_digits (l : List Char) (h : ∀ c ∈ l, isDigitChar c = true) :
    l.dropWhile isCppSpace = l := by
  cases l with
  | nil => rfl
  | cons c cs =>
    rw [List.dropWhile_cons, isCppSpace_of_digit (h c (List.mem_cons_self c cs))]
    simp

theorem takeWhile_digits_of_digits (l : List Char) (h : ∀ c ∈ l, isDigitChar c = true) :
    l.takeWhile isDigitChar = l := by
  induction l with
  | nil => rfl
  | cons c cs ih =>
    rw [List.takeWhile_cons, h c (List.mem_cons_self c cs)]
    simp only [if_true]
    rw [ih (fun x hx => h x (List.mem_cons_of_mem c hx))]

theorem cppStoi_of_digits (ds : List Char) (hne : ds ≠ [])
    (hd : ∀ c ∈ ds, isDigitChar c = true)
    (hb : ((digitsVal ds : Int)) ≤ 2147483647) :
    cppStoi ds = some ((digitsVal ds : Int)) := by
  obtain ⟨c, cs, rfl⟩ := List.exists_cons_of_ne_nil hne
  have hc := hd c (List.mem_cons_self c cs)
  have hcm : c ≠ '-' := by
    intro h
    subst h
    exact absurd hc (by decide)
  have hcp : c ≠ '+' := by
    intro h
    subst h
    exact absurd hc (by decide)
  have hdrop : (c :: cs).dropWhile isCppSpace = c :: cs :=
    dropWhile_space_of_digits _ hd
  have htake : (c :: cs).takeWhile isDigitChar = c :: cs :=
    takeWhile_digits_of_digits _ hd
  have h0 : (0 : Int) ≤ ((digitsVal (c :: cs) : Int)) := Int.natCast_nonneg _
  unfold cppStoi
  rw [hdrop]
  simp only [List.head?_cons, Option.some.injEq]
  rw [if_neg (show ¬(c = '-' ∨ c = '+') by
    intro h
    rcases h with h | h
    · exact hcm h
    · exact hcp h)]
  rw [htake]
  rw [if_neg hne]
  have hnd : decide (c = '-') = false := by
    simp [hcm]
  rw [hnd]
  simp only [Bool.false_eq_true, if_false]
  rw [if_neg (by omega)]

theorem relIdNum_rId_natToDec (n : Nat) (hb : ((n : Int)) ≤ 2147483647) :
    relIdNum ("rId" ++ String.mk (natToDec n)) = some ((n : Int)) := by
  obtain ⟨hne, hdig, hval⟩ := natToDec_spec n
  have hdata : ("rId" ++ String.mk (natToDec n)).data = 'r' :: 'I' :: 'd' :: natToDec n := by
    rw [String.data_append]
    rfl
  have hlen : ('r' :: 'I' :: 'd' :: natToDec n).length > 3 := by
    simp only [List.length_cons]
    have := List.length_pos.mpr hne
    omega
  unfold relIdNum
  rw [hdata]
  rw [if_pos ⟨hlen, rfl⟩]
  show cppStoi (natToDec n) = some ((n : Int))
  rw [cppStoi_of_digits _ hne hdig (by rw [hval]; exact hb), hval]

/-! ## Relationship-index lemmas -/

theorem le_foldl_relMaxStep (rels : List Relationship) :
    ∀ m : Int, m ≤ rels.foldl relMaxStep m := by
  induction rels with
  | nil => intro m; simp
  | cons r rs ih =>
    intro m
    have h1 : m ≤ relMaxStep m r := by
      unfold relMaxStep
      cases relIdNum r.id with
      | none => exact le_refl m
      | some k => exact le_max_left m k
    exact le_trans h1 (ih (relMaxStep m r))

theorem maxRelId_nonneg (rels : List Relationship) : 0 ≤ maxRelId rels :=
  le_foldl_relMaxStep rels 0

theorem mem_relIdNum_le_foldl (rels : List Relationship) :
    ∀ (m : Int) (r : Relationship), r ∈ rels → ∀ k, relIdNum r.id = some k →
      k ≤ rels.foldl relMaxStep m := by
  induction rels with
  | nil => intro m r hr; exact absurd hr (List.not_mem_nil r)
  | cons r0 rs ih =>
    intro m r hr k hk
    rcases List.mem_cons.mp hr with h | h
    · subst h
      have h1 : k ≤ relMaxStep m r := by
        unfold relMaxStep
        rw [hk]
        exact le_max_right m k
      exact le_trans h1 (le_foldl_relMaxStep rs (relMaxStep m r))
    · exact ih (relMaxStep m r0) r h k hk

theorem mem_relIdNum_le_maxRelId {rels : List Relationship} {r : Relationship} {k : Int}
    (hr : r ∈ rels) (hk : relIdNum r.id = some k) : k ≤ maxRelId rels :=
  mem_relIdNum_le_foldl rels 0 r hr k hk

theorem maxRelId_append_single (rels : List Relationship) (r : Relationship) :
    maxRelId (rels ++ [r]) = relMaxStep (maxRelId rels) r := by
  unfold maxRelId
  rw [List.foldl_append]
  rfl

theorem addRelationship_fst (rels : List Relationship) (ty tg md : String) :
    (addRelationship rels ty tg md).1 = "rId" ++ intToString (maxRelId rels + 1) := rfl

theorem addRelationship_snd (rels : List Relationship) (ty tg md : String) :
    (addRelationship rels ty tg md).2 =
      rels ++ [⟨(addRelationship rels ty tg md).1, ty, tg, md⟩] := rfl

theorem intToString_nonneg {i : Int} (h : 0 ≤ i) :
    intToString i = String.mk (natToDec i.toNat) := by
  unfold intToString
  rw [if_neg (by omega)]

theorem relIdNum_add (rels : List Relationship) (ty tg md : String)
    (hb : maxRelId rels < 2147483647) :
    relIdNum (addRelationship rels ty tg md).1 = some (maxRelId rels + 1) := by
  have h0 := maxRelId_nonneg rels
  have hcast : (((maxRelId rels + 1).toNat : Int)) = maxRelId rels + 1 :=
    Int.toNat_of_nonneg (by omega)
  rw [addRelationship_fst, intToString_nonneg (show (0:Int) ≤ maxRelId rels + 1 by omega)]
  rw [relIdNum_rId_natToDec (maxRelId rels + 1).toNat (by rw [hcast]; omega), hcast]

theorem maxRelId_add (rels : List Relationship) (ty tg md : String)
    (hb : maxRelId rels < 2147483647) :
    maxRelId (addRelationship rels ty tg md).2 = maxRelId rels + 1 := by
  have h := relIdNum_add rels ty tg md hb
  rw [addRelationship_snd, maxRelId_append_single]
  unfold relMaxStep
  rw [show (⟨(addRelationship rels ty tg md).1, ty, tg, md⟩ : Relationship).id =
    (addRelationship rels ty tg md).1 from rfl]
  rw [h]
  show max (maxRelId rels) (maxRelId rels + 1) = maxRelId rels + 1
  exact max_eq_right (by omega)

/-- C2 (counterexample): against one relationship file, `add_relationship`
issues `rId2`, `remove_relationship` deletes the relationship bearing it, and
the next `add_relationship` hands out `rId2` again — an id that once existed
in the file is reused after its relationship was deleted, contradicting the
claim. -/
theorem removed_relationship_id_is_reused :
    (addRelationship [] "t" "a" "").1 = "rId1" ∧
      (addRelationship (addRelationship [] "t" "a" "").2 "t" "b" "").1 = "rId2" ∧
      (addRelationship
          (removeRelationship
            (addRelationship (addRelationship [] "t" "a" "").2 "t" "b" "").2 "rId2")
          "t" "c" "").1 = "rId2" := by
  decide

/-- C2 (amended): for every relationship file state, `add_relationship`
returns the id `rId<N>` with `N = max(currently present N) + 1`, which is
distinct from every id currently in the file; ids of removed relationships
can however be handed out again (see the counterexample). -/
theorem add_relationship_id_max_plus_one_and_fresh
    (rels : List Relationship) (ty tg md : String)
    (hb : maxRelId rels < 2147483647) :
    relIdNum (addRelationship rels ty tg md).1 = some (maxRelId rels + 1) ∧
      (addRelationship rels ty tg md).1 ∉ rels.map Relationship.id := by
  refine ⟨relIdNum_add rels ty tg md hb, ?_⟩
  intro hmem
  rw [List.mem_map] at hmem
  obtain ⟨r, hr, hid⟩ := hmem
  have hk : relIdNum r.id = some (maxRelId rels + 1) := by
    rw [hid]
    exact relIdNum_add rels ty tg md hb
  have := mem_relIdNum_le_maxRelId hr hk
  omega

/-- Witness for the C2 theorem at a concrete relationship file. -/
theorem add_relationship_id_max_plus_one_and_fresh_witness :
    maxRelId [⟨"rId1", "t", "x", ""⟩] < 2147483647 ∧
      (relIdNum (addRelationship [⟨"rId1", "t", "x", ""⟩] "t" "y" "").1 =
          some (maxRelId [⟨"rId1", "t", "x", ""⟩] + 1) ∧
        (addRelationship [⟨"rId1", "t", "x", ""⟩] "t" "y" "").1 ∉
          [(⟨"rId1", "t", "x", ""⟩ : Relationship)].map Relationship.id) :=
  ⟨by decide,
    add_relationship_id_max_plus_one_and_fresh [⟨"rId1", "t", "x", ""⟩] "t" "y" "" (by decide)⟩

/-- The ids issued by a run of `add_relationship` calls all parse and exceed
the starting maximum, and are pairwise strictly increasing in suffix. -/
theorem runAdds_ids_spec :
    ∀ (ps : List (String × String × String)) (rels : List Relationship),
      maxRelId rels + ps.length ≤ 2147483647 →
      (∀ s ∈ (runAdds rels ps).1, ∃ k, relIdNum s = some k ∧ maxRelId rels < k) ∧
        List.Pairwise
          (fun a b => ∃ ka kb, relIdNum a = some ka ∧ relIdNum b = some kb ∧ ka < kb)
          (runAdds rels ps).1 := by
  intro ps
  induction ps with
  | nil =>
    intro rels h
    exact ⟨by simp [runAdds], by simp [runAdds]⟩
  | cons p ps ih =>
    intro rels h
    rw [List.length_cons] at h
    push_cast at h
    have hlen : (0 : Int) ≤ (ps.length : Int) := Int.natCast_nonneg _
    have hb : maxRelId rels < 2147483647 := by omega
    have hadd := relIdNum_add rels p.1 p.2.1 p.2.2 hb
    have hmax := maxRelId_add rels p.1 p.2.1 p.2.2 hb
    have hih := ih (addRelationship rels p.1 p.2.1 p.2.2).2
      (by rw [hmax]; omega)
    have hrun : (runAdds rels (p :: ps)).1 =
        (addRelationship rels p.1 p.2.1 p.2.2).1 ::
          (runAdds (addRelationship rels p.1 p.2.1 p.2.2).2 ps).1 := rfl
    constructor
    · intro s hs
      rw [hrun] at hs
      rcases List.mem_cons.mp hs with h1 | h1
      · exact ⟨maxRelId rels + 1, h1 ▸ hadd, by omega⟩
      · obtain ⟨k, hk1, hk2⟩ := hih.1 s h1
        rw [hmax] at hk2
        exact ⟨k, hk1, by omega⟩
    · rw [hrun]
      refine List.Pairwise.cons ?_ hih.2
      intro b hb2
      obtain ⟨k, hk1, hk2⟩ := hih.1 b hb2
      rw [hmax] at hk2
      exact ⟨maxRelId rels + 1, k, hadd, hk1, by omega⟩

/-- C6: for every relationship file state and every sequence consisting only
of `add_relationship` calls against it, the returned ids are pairwise
distinct and their numeric `rId` suffixes strictly increase in call order
(under the `int` bound inherent in `std::stoi`/`std::to_string`). -/
theorem add_relationship_ids_distinct_increasing
    (rels : List Relationship) (ps : List (String × String × String))
    (h : maxRelId rels + ps.length ≤ 2147483647) :
    List.Pairwise
      (fun a b => a ≠ b ∧ (relIdNum a).getD 0 < (relIdNum b).getD 0)
      (runAdds rels ps).1 := by
  have hp := (runAdds_ids_spec ps rels h).2
  refine hp.imp ?_
  rintro a b ⟨ka, kb, ha, hb, hlt⟩
  constructor
  · intro hab
    subst hab
    rw [ha] at hb
    injection hb with hk
    omega
  · rw [ha, hb]
    simpa using hlt

/-- Witness for the C6 theorem at a concrete call sequence. -/
theorem add_relationship_ids_distinct_increasing_witness :
    maxRelId [] + ([("t", "a", ""), ("t", "b", "")] :
        List (String × String × String)).length ≤ 2147483647 ∧
      List.Pairwise
        (fun a b => a ≠ b ∧ (relIdNum a).getD 0 < (relIdNum b).getD 0)
        (runAdds [] [("t", "a", ""), ("t", "b", "")]).1 :=
  ⟨by decide,
    add_relationship_ids_distinct_increasing [] [("t", "a", ""), ("t", "b", "")] (by decide)⟩

/-! ## Tree lemmas -/

theorem paths_updateNode (t : Tree) (p : String) (f : Node → Node)
    (hf : ∀ n, (f n).full_path = n.full_path) :
    (updateNode t p f).map Node.full_path = t.map Node.full_path := by
  unfold updateNode
  rw [List.map_map]
  apply List.map_congr_left
  intro n _
  by_cases h : n.full_path = p <;> simp [h, hf]

theorem findNode_updateNode_self (p : String) (f : Node → Node)
    (hf : ∀ n, (f n).full_path = n.full_path) :
    ∀ t : Tree, findNode (updateNode t p f) p = (findNode t p).map f := by
  intro t
  induction t with
  | nil => rfl
  | cons n rest ih =>
    show findNode ((if n.full_path = p then f n else n) :: updateNode rest p f) p = _
    by_cases h : n.full_path = p
    · rw [if_pos h]
      unfold findNode
      rw [List.find?_cons_of_pos _ (by simp [hf n, h]),
        List.find?_cons_of_pos _ (by simp [h])]
      rfl
    · rw [if_neg h]
      unfold findNode
      rw [List.find?_cons_of_neg _ (by simp [h]),
        List.find?_cons_of_neg _ (by simp [h])]
      exact ih

theorem findNode_updateNode_ne (p q : String) (f : Node → Node)
    (hf : ∀ n, (f n).full_path = n.full_path) (hq : q ≠ p) :
    ∀ t : Tree, findNode (updateNode t p f) q = findNode t q := by
  intro t
  induction t with
  | nil => rfl
  | cons n rest ih =>
    show findNode ((if n.full_path = p then f n else n) :: updateNode rest p f) q = _
    by_cases h : n.full_path = p
    · rw [if_pos h]
      unfold findNode
      rw [List.find?_cons_of_neg _ (by simp [hf n, h]; exact fun hc => hq hc.symm),
        List.find?_cons_of_neg _ (by simp [h]; exact fun hc => hq hc.symm)]
      exact ih
    · rw [if_neg h]
      by_cases h2 : n.full_path = q
      · unfold findNode
        rw [List.find?_cons_of_pos _ (by simp [h2]),
          List.find?_cons_of_pos _ (by simp [h2])]
      · unfold findNode
        rw [List.find?_cons_of_neg _ (by simp [h2]),
          List.find?_cons_of_neg _ (by simp [h2])]
        exact ih

theorem findNode_append (t1 t2 : Tree) (p : String) :
    findNode (t1 ++ t2) p = (findNode t1 p).or (findNode t2 p) := by
  unfold findNode
  exact List.find?_append

theorem findNode_mem {t : Tree} {p : String} {n : Node}
    (h : findNode t p = some n) : n ∈ t ∧ n.full_path = p := by
  refine ⟨List.mem_of_find?_eq_some h, ?_⟩
  have := List.find?_some h
  simpa using this

theorem findNode_eq_none_iff {t : Tree} {p : String} :
    findNode t p = none ↔ ∀ n ∈ t, n.full_path ≠ p := by
  unfold findNode
  rw [List.find?_eq_none]
  constructor
  · intro h n hn
    have := h n hn
    simpa using this
  · intro h n hn
    simpa using h n hn

theorem mem_updateNode {t : Tree} {p : String} {f : Node → Node} {m : Node}
    (h : m ∈ updateNode t p f) :
    ∃ n ∈ t, m = if n.full_path = p then f n else n := by
  unfold updateNode at h
  rw [List.mem_map] at h
  obtain ⟨n, hn, he⟩ := h
  exact ⟨n, hn, he.symm⟩

theorem updateNode_of_absent {t : Tree} {p : String} {f : Node → Node}
    (h : findNode t p = none) : updateNode t p f = t := by
  unfold updateNode
  have h2 := findNode_eq_none_iff.mp h
  calc t.map (fun n => if n.full_path = p then f n else n) = t.map id := by
        apply List.map_congr_left
        intro n hn
        rw [if_neg (h2 n hn)]
        rfl
    _ = t := List.map_id t

theorem findOrCreateNode_found {t : Tree} {p : String} {ty : DocxNodeType} {n : Node}
    (h : findNode t p = some n) : findOrCreateNode t p ty = t := by
  unfold findOrCreateNode
  rw [h]

theorem findOrCreateNode_absent {t : Tree} {p : String} {ty : DocxNodeType}
    (h : findNode t p = none) : findOrCreateNode t p ty = t ++ [newNode p ty] := by
  unfold findOrCreateNode
  rw [h]

/-! ## Tombstone-invariant lemmas -/

theorem tombstoned_iff {t : Tree} {p : String} :
    Tombstoned t p ↔
      (∃ n ∈ t, n.full_path = p) ∧ ∀ n ∈ t, n.full_path = p → n.is_deleted = true := by
  unfold Tombstoned
  constructor
  · rintro ⟨h1, h2⟩
    refine ⟨?_, h2⟩
    have := List.find?_isSome.mp h1
    obtain ⟨n, hn, hp⟩ := this
    exact ⟨n, hn, by simpa using hp⟩
  · rintro ⟨⟨n, hn, hp⟩, h2⟩
    refine ⟨List.find?_isSome.mpr ⟨n, hn, by simpa using hp⟩, h2⟩

theorem tombstoned_updateNode {t : Tree} {p q : String} {f : Node → Node}
    (hf : ∀ n, (f n).full_path = n.full_path ∧ (f n).is_deleted = n.is_deleted)
    (h : Tombstoned t p) : Tombstoned (updateNode t q f) p := by
  rw [tombstoned_iff] at h ⊢
  obtain ⟨⟨n, hn, hp⟩, h2⟩ := h
  constructor
  · refine ⟨if n.full_path = q then f n else n, ?_, ?_⟩
    · unfold updateNode
      exact List.mem_map.mpr ⟨n, hn, rfl⟩
    · by_cases hq : n.full_path = q
      · rw [if_pos hq, (hf n).1, hp]
      · rw [if_neg hq, hp]
  · intro m hm hmp
    obtain ⟨n0, hn0, he⟩ := mem_updateNode hm
    by_cases hq : n0.full_path = q
    · rw [he, if_pos hq] at hmp ⊢
      rw [(hf n0).2]
      exact h2 n0 hn0 (by rw [← (hf n0).1]; exact hmp)
    · rw [he, if_neg hq] at hmp ⊢
      exact h2 n0 hn0 hmp

theorem tombstoned_append_new {t : Tree} {p q : String} {ty : DocxNodeType}
    (h : Tombstoned t p) (hq : q ≠ p) : Tombstoned (t ++ [newNode q ty]) p := by
  rw [tombstoned_iff] at h ⊢
  obtain ⟨⟨n, hn, hp⟩, h2⟩ := h
  refine ⟨⟨n, List.mem_append_left _ hn, hp⟩, ?_⟩
  intro m hm hmp
  rcases List.mem_append.mp hm with hm | hm
  · exact h2 m hm hmp
  · rw [List.mem_singleton] at hm
    subst hm
    exact absurd hmp hq

theorem tombstoned_findOrCreate {t : Tree} {p q : String} {ty : DocxNodeType}
    (h : Tombstoned t p) : Tombstoned (findOrCreateNode t q ty) p := by
  cases hq : findNode t q with
  | some n => rw [findOrCreateNode_found hq]; exact h
  | none =>
    rw [findOrCreateNode_absent hq]
    refine tombstoned_append_new h ?_
    intro he
    subst he
    have h1 : (findNode t q).isSome = true := h.1
    rw [hq] at h1
    exact absurd h1 (by simp)

theorem tombstoned_not_saved {t : Tree} {p : String} (h : Tombstoned t p) :
    p ∉ (saveTreeEntries t).map Prod.fst := by
  intro hmem
  rw [List.mem_map] at hmem
  obtain ⟨e, he, hp⟩ := hmem
  unfold saveTreeEntries at he
  rw [List.mem_map] at he
  obtain ⟨n, hn, hne⟩ := he
  rw [List.mem_filter] at hn
  have hdel := (tombstoned_iff.mp h).2 n hn.1 (by rw [← hp, ← hne])
  rw [hdel] at hn
  exact absurd hn.2 (by simp)

theorem tombstoned_updateRelationshipsXml {impl : Impl} {p rels_path : String}
    (h : Tombstoned impl.tree_ p) :
    Tombstoned (updateRelationshipsXml impl rels_path).tree_ p := by
  unfold updateRelationshipsXml
  cases h2 : lookupAssoc impl.relationships_ rels_path with
  | none => exact h
  | some rels =>
    exact tombstoned_updateNode (fun _ => ⟨rfl, rfl⟩) (tombstoned_findOrCreate h)

theorem tombstoned_updateContentTypesXml {impl : Impl} {p : String}
    (h : Tombstoned impl.tree_ p) :
    Tombstoned (updateContentTypesXml impl).tree_ p :=
  tombstoned_updateNode (fun _ => ⟨rfl, rfl⟩) (tombstoned_findOrCreate h)

theorem tombstoned_foldRels {p : String} :
    ∀ (keys : List (String × List Relationship)) (impl : Impl),
      Tombstoned impl.tree_ p →
      Tombstoned ((keys.foldl (fun acc kv => updateRelationshipsXml acc kv.1) impl)).tree_ p := by
  intro keys
  induction keys with
  | nil => intro impl h; exact h
  | cons kv rest ih =>
    intro impl h
    exact ih (updateRelationshipsXml impl kv.1) (tombstoned_updateRelationshipsXml h)

/-! ## Association-list and filesystem lemmas -/

theorem lookupAssoc_set_self {α : Type} (k : String) (v : α) :
    ∀ m : List (String × α), lookupAssoc (setAssoc m k v) k = some v := by
  intro m
  unfold setAssoc
  by_cases h : (List.find? (fun e => e.1 = k) m).isSome
  · rw [if_pos h]
    revert h
    induction m with
    | nil => intro h; simp at h
    | cons e rest ih =>
      intro h
      by_cases he : e.1 = k
      · unfold lookupAssoc
        rw [List.map_cons, if_pos he, List.find?_cons_of_pos _ (by simp)]
        rfl
      · unfold lookupAssoc
        rw [List.map_cons, if_neg he, List.find?_cons_of_neg _ (by simp [he])]
        apply ih
        rw [List.find?_cons_of_neg _ (by simp [he])] at h
        exact h
  · rw [if_neg h]
    have hnone : List.find? (fun e => e.1 = k) m = none := by
      cases hc : List.find? (fun e => e.1 = k) m with
      | none => rfl
      | some e => rw [hc] at h; simp at h
    unfold lookupAssoc
    rw [List.find?_append, hnone, List.find?_cons_of_pos _ (by simp)]
    rfl

theorem lookupAssoc_set_ne {α : Type} (k q : String) (v : α) (hq : q ≠ k) :
    ∀ m : List (String × α), lookupAssoc (setAssoc m k v) q = lookupAssoc m q := by
  intro m
  unfold setAssoc
  by_cases h : (List.find? (fun e => e.1 = k) m).isSome
  · rw [if_pos h]
    clear h
    induction m with
    | nil => rfl
    | cons e rest ih =>
      by_cases he : e.1 = k
      · unfold lookupAssoc
        rw [List.map_cons, if_pos he,
          List.find?_cons_of_neg _ (by simp; exact fun hc => hq hc.symm),
          List.find?_cons_of_neg _ (by rw [he]; simp; exact fun hc => hq hc.symm)]
        exact ih
      · by_cases heq : e.1 = q
        · unfold lookupAssoc
          rw [List.map_cons, if_neg he, List.find?_cons_of_pos _ (by simp [heq]),
            List.find?_cons_of_pos _ (by simp [heq])]
        · unfold lookupAssoc
          rw [List.map_cons, if_neg he, List.find?_cons_of_neg _ (by simp [heq]),
            List.find?_cons_of_neg _ (by simp [heq])]
          exact ih
  · rw [if_neg h]
    unfold lookupAssoc
    rw [List.find?_append, List.find?_cons_of_neg _ (by simp; exact fun hc => hq hc.symm)]
    cases hc : List.find? (fun e => e.1 = q) m with
    | none => rfl
    | some e => rfl

theorem fsLookup_fsRemove_self (fs : FS) (p : String) :
    fsLookup (fsRemove fs p) p = none := by
  unfold fsLookup fsRemove lookupAssoc
  rw [List.find?_eq_none.mpr]
  · rfl
  · intro e he
    rw [List.mem_filter] at he
    simp only [decide_eq_true_eq] at he ⊢
    exact he.2

theorem fsLookup_fsRemove_ne (fs : FS) (p q : String) (h : p ≠ q) :
    fsLookup (fsRemove fs q) p = fsLookup fs p := by
  unfold fsLookup fsRemove lookupAssoc
  induction fs with
  | nil => rfl
  | cons e rest ih =>
    by_cases he : e.1 = q
    · rw [List.filter_cons_of_neg (by simp [he]),
        List.find?_cons_of_neg _ (by simp [he]; exact fun hc => h hc.symm)]
      exact ih
    · rw [List.filter_cons_of_pos (by simp [he])]
      by_cases hp : e.1 = p
      · rw [List.find?_cons_of_pos _ (by simp [hp]), List.find?_cons_of_pos _ (by simp [hp])]
      · rw [List.find?_cons_of_neg _ (by simp [hp]), List.find?_cons_of_neg _ (by simp [hp])]
        exact ih

theorem self_ne_append_tmp (s : String) : s ≠ s ++ ".tmp" := by
  intro h
  have h2 := congrArg (fun x : String => x.data.length) h
  simp only [String.data_append] at h2
  simp at h2

/-! ## Save-pipeline lemmas -/

theorem saveToZip_envOk (fs : FS) (impl : Impl) (out : String) :
    (saveToZip envOk fs impl out).1 = true ∧
      fsLookup (saveToZip envOk fs impl out).2 out =
        some (.zipArchive (saveTreeEntries impl.tree_)) := by
  have htne : out ++ ".tmp" ≠ out := fun hc => (self_ne_append_tmp out) hc.symm
  simp only [saveToZip]
  rw [if_neg (show ¬(envOk.zipOpenWFails = true) by decide)]
  rw [if_neg (show ¬(envOk.writeFails = true) by decide)]
  rw [if_neg (show ¬(envOk.renameFails = true) by decide)]
  by_cases hc : out = impl.filepath_ ∧
      (fsLookup (fsSet fs (out ++ ".tmp") (.zipArchive (saveTreeEntries impl.tree_)))
        impl.filepath_).isSome = true
  · rw [if_pos hc]
    have h1 : fsLookup
        (fsRemove (fsSet fs (out ++ ".tmp") (.zipArchive (saveTreeEntries impl.tree_)))
          impl.filepath_) (out ++ ".tmp") =
        some (.zipArchive (saveTreeEntries impl.tree_)) := by
      rw [fsLookup_fsRemove_ne _ _ _ (by rw [← hc.1]; exact htne)]
      exact lookupAssoc_set_self _ _ _
    rw [h1]
    exact ⟨rfl, lookupAssoc_set_self _ _ _⟩
  · rw [if_neg hc]
    have h1 : fsLookup (fsSet fs (out ++ ".tmp") (.zipArchive (saveTreeEntries impl.tree_)))
        (out ++ ".tmp") = some (.zipArchive (saveTreeEntries impl.tree_)) :=
      lookupAssoc_set_self _ _ _
    rw [h1]
    exact ⟨rfl, lookupAssoc_set_self _ _ _⟩

/-- The tree on which `Document::save` runs `save_to_zip`: the tree after the
relationship and content-type serialization pre-pass. -/
def savePrePass (impl : Impl) : Impl :=
  updateContentTypesXml
    (impl.relationships_.foldl (fun acc kv => updateRelationshipsXml acc kv.1) impl)

theorem docSave_envOk (fs : FS) (impl : Impl) (out : String)
    (hopen : impl.is_open_ = true) :
    (docSave envOk fs impl out).1 = true ∧
      fsLookup (docSave envOk fs impl out).2.1 out =
        some (.zipArchive (saveTreeEntries (savePrePass impl).tree_)) := by
  have hsz := saveToZip_envOk fs (savePrePass impl) out
  simp only [docSave, hopen, Bool.not_true, Bool.false_eq_true, if_false]
  simp only [show updateContentTypesXml
      (impl.relationships_.foldl (fun acc kv => updateRelationshipsXml acc kv.1) impl) =
      savePrePass impl from rfl]
  rw [if_pos hsz.1]
  exact ⟨rfl, hsz.2⟩

theorem tombstoned_savePrePass {impl : Impl} {p : String}
    (h : Tombstoned impl.tree_ p) : Tombstoned (savePrePass impl).tree_ p :=
  tombstoned_updateContentTypesXml (tombstoned_foldRels impl.relationships_ impl h)

/-! ## Open-pipeline lemmas -/

theorem payloadUpdate_path (parse : List Nat → Option XmlDoc) (ty : DocxNodeType)
    (data : List Nat) (n : Node) :
    (payloadUpdate parse ty data n).full_path = n.full_path := by
  unfold payloadUpdate
  by_cases h : ty = .XmlFile
  · rw [if_pos h]
    cases parse data <;> rfl
  · rw [if_neg h]

theorem mem_addZipEntry_path {parse : List Nat → Option XmlDoc} {t : Tree}
    {p : String} {data : List Nat} {n : Node}
    (h : n ∈ (addZipEntry parse t p data).1) :
    n.full_path ∈ t.map Node.full_path ∨ n.full_path = p := by
  unfold addZipEntry at h
  simp only [] at h
  obtain ⟨n0, hn0, he⟩ := mem_updateNode h
  have hpath : n.full_path = n0.full_path := by
    rw [he]
    by_cases hq : n0.full_path = p
    · rw [if_pos hq]
      exact payloadUpdate_path _ _ _ _
    · rw [if_neg hq]
  unfold findOrCreateNode at hn0
  cases hf : findNode t p with
  | some m =>
    rw [hf] at hn0
    exact Or.inl (by rw [hpath]; exact List.mem_map.mpr ⟨n0, hn0, rfl⟩)
  | none =>
    rw [hf] at hn0
    rcases List.mem_append.mp hn0 with hm | hm
    · exact Or.inl (by rw [hpath]; exact List.mem_map.mpr ⟨n0, hm, rfl⟩)
    · rw [List.mem_singleton] at hm
      subst hm
      exact Or.inr hpath

theorem mem_loadTree_path {parse : List Nat → Option XmlDoc} :
    ∀ (es : List (String × List Nat)) (t : Tree) (n : Node),
      n ∈ es.foldl
        (fun t e =>
          if e.1 = "" ∨ e.1.data.getLast? = some '/' then t
          else if e.2 = [] then t
          else (addZipEntry parse t e.1 e.2).1) t →
      n.full_path ∈ t.map Node.full_path ∨ ∃ e ∈ es, n.full_path = e.1 := by
  intro es
  induction es with
  | nil =>
    intro t n h
    exact Or.inl (List.mem_map.mpr ⟨n, h, rfl⟩)
  | cons e rest ih =>
    intro t n h
    rw [List.foldl_cons] at h
    by_cases h1 : e.1 = "" ∨ e.1.data.getLast? = some '/'
    · rw [if_pos h1] at h
      rcases ih t n h with hm | ⟨e2, he2, hp⟩
      · exact Or.inl hm
      · exact Or.inr ⟨e2, List.mem_cons_of_mem e he2, hp⟩
    · rw [if_neg h1] at h
      by_cases h2 : e.2 = []
      · rw [if_pos h2] at h
        rcases ih t n h with hm | ⟨e2, he2, hp⟩
        · exact Or.inl hm
        · exact Or.inr ⟨e2, List.mem_cons_of_mem e he2, hp⟩
      · rw [if_neg h2] at h
        rcases ih _ n h with hm | ⟨e2, he2, hp⟩
        · rw [List.mem_map] at hm
          obtain ⟨m, hm1, hm2⟩ := hm
          rcases mem_addZipEntry_path hm1 with hmm | hmm
          · exact Or.inl (by rw [← hm2]; exact hmm)
          · exact Or.inr ⟨e, List.mem_cons_self e rest, by rw [← hm2]; exact hmm⟩
        · exact Or.inr ⟨e2, List.mem_cons_of_mem e he2, hp⟩

theorem mem_loadTreeFromZip_path {parse : List Nat → Option XmlDoc}
    {es : List (String × List Nat)} {n : Node}
    (h : n ∈ loadTreeFromZip parse es) : ∃ e ∈ es, n.full_path = e.1 := by
  rcases mem_loadTree_path es [] n h with hm | hm
  · simp at hm
  · exact hm

theorem mem_getAllPartNames {impl : Impl} {q : String}
    (h : q ∈ getAllPartNames impl) : ∃ n ∈ impl.tree_, n.full_path = q := by
  unfold getAllPartNames at h
  rw [List.mem_filterMap] at h
  obtain ⟨n, hn, he⟩ := h
  refine ⟨n, hn, ?_⟩
  by_cases ht : n.ntype = DocxNodeType.XmlFile
  · rw [if_pos ht] at he
    injection he
  · rw [if_neg ht] at he
    exact absurd he (by simp)

theorem fsRemove_fsSet (fs : FS) (k : String) (v : FileData) :
    fsRemove (fsSet fs k v) k = fsRemove fs k := by
  unfold fsSet setAssoc fsRemove
  by_cases h : (List.find? (fun e => e.1 = k) fs).isSome
  · rw [if_pos h]
    clear h
    induction fs with
    | nil => rfl
    | cons e rest ih =>
      by_cases he : e.1 = k
      · rw [List.map_cons, if_pos he, List.filter_cons_of_neg (by simp),
          List.filter_cons_of_neg (by simp [he])]
        exact ih
      · rw [List.map_cons, if_neg he, List.filter_cons_of_pos (by simp [he]),
          List.filter_cons_of_pos (by simp [he])]
        rw [ih]
  · rw [if_neg h]
    rw [List.filter_append]
    rw [List.filter_cons_of_neg (by simp)]
    simp

theorem removeNode_found {t : Tree} {p : String} {m : Node}
    (h : findNode t p = some m) :
    removeNode t p = (true, updateNode t p (fun x => { x with is_deleted := true })) := by
  unfold removeNode
  rw [h]

theorem tombstoned_removeNode {t : Tree} {p : String}
    (h : (findNode t p).isSome = true) :
    Tombstoned (updateNode t p (fun x => { x with is_deleted := true })) p := by
  rw [tombstoned_iff]
  obtain ⟨n, hn, hp⟩ := List.find?_isSome.mp h
  simp only [decide_eq_true_eq] at hp
  constructor
  · refine ⟨{ n with is_deleted := true }, ?_, hp⟩
    unfold updateNode
    exact List.mem_map.mpr ⟨n, hn, by rw [if_pos hp]⟩
  · intro m hm hmp
    obtain ⟨n0, hn0, he⟩ := mem_updateNode hm
    by_cases hq : n0.full_path = p
    · rw [he, if_pos hq]
    · rw [he, if_neg hq] at hmp
      exact absurd hmp hq

theorem docOpen_zip (parse : List Nat → Option XmlDoc) (fs : FS) (impl : Impl)
    (path : String) (es : List (String × List Nat))
    (h : fsLookup fs path = some (.zipArchive es)) :
    (docOpen parse fs impl path).tree_ = loadTreeFromZip parse es ∧
      (docOpen parse fs impl path).is_open_ = true := by
  unfold docOpen
  rw [h]
  exact ⟨rfl, rfl⟩

theorem payloadUpdate_xml_none {parse : List Nat → Option XmlDoc} {data : List Nat}
    (m : Node) (hparse : parse data = none) :
    payloadUpdate parse .XmlFile data m =
      { m with ntype := .BinaryFile, binary_data := data } := by
  unfold payloadUpdate
  rw [if_pos rfl, hparse]

theorem payloadUpdate_xml_some {parse : List Nat → Option XmlDoc} {ty : DocxNodeType}
    {data : List Nat} {m : Node} {d : XmlDoc}
    (h : (payloadUpdate parse ty data m).xml_doc = some d) :
    parse data = some d ∨ m.xml_doc = some d := by
  unfold payloadUpdate at h
  by_cases hty : ty = .XmlFile
  · rw [if_pos hty] at h
    cases hp : parse data with
    | some d2 =>
      rw [hp] at h
      exact Or.inl h
    | none =>
      rw [hp] at h
      exact Or.inr h
  · rw [if_neg hty] at h
    exact Or.inr h

theorem mem_addZipEntry_xml {parse : List Nat → Option XmlDoc} {t : Tree}
    {p : String} {data : List Nat} {n : Node} {d : XmlDoc}
    (h : n ∈ (addZipEntry parse t p data).1) (hd : n.xml_doc = some d) :
    (∃ m ∈ t, m.full_path = n.full_path ∧ m.xml_doc = some d) ∨
      (n.full_path = p ∧ parse data = some d) := by
  unfold addZipEntry at h
  simp only [] at h
  obtain ⟨n0, hn0, he⟩ := mem_updateNode h
  subst he
  by_cases hq : n0.full_path = p
  · rw [if_pos hq] at hd ⊢
    rcases payloadUpdate_xml_some hd with hp | hp
    · exact Or.inr ⟨by rw [payloadUpdate_path]; exact hq, hp⟩
    · unfold findOrCreateNode at hn0
      cases hf : findNode t p with
      | some m =>
        rw [hf] at hn0
        exact Or.inl ⟨n0, hn0, by rw [payloadUpdate_path], hp⟩
      | none =>
        rw [hf] at hn0
        rcases List.mem_append.mp hn0 with hm | hm
        · exact Or.inl ⟨n0, hm, by rw [payloadUpdate_path], hp⟩
        · rw [List.mem_singleton] at hm
          subst hm
          exact absurd hp (by simp [newNode])
  · rw [if_neg hq] at hd ⊢
    unfold findOrCreateNode at hn0
    cases hf : findNode t p with
    | some m =>
      rw [hf] at hn0
      exact Or.inl ⟨n0, hn0, rfl, hd⟩
    | none =>
      rw [hf] at hn0
      rcases List.mem_append.mp hn0 with hm | hm
      · exact Or.inl ⟨n0, hm, rfl, hd⟩
      · rw [List.mem_singleton] at hm
        subst hm
        exact absurd rfl hq

theorem mem_loadTree_xml {parse : List Nat → Option XmlDoc} :
    ∀ (es : List (String × List Nat)) (t : Tree) (n : Node) (d : XmlDoc),
      n ∈ es.foldl
        (fun t e =>
          if e.1 = "" ∨ e.1.data.getLast? = some '/' then t
          else if e.2 = [] then t
          else (addZipEntry parse t e.1 e.2).1) t →
      n.xml_doc = some d →
      (∃ m ∈ t, m.full_path = n.full_path ∧ m.xml_doc = some d) ∨
        ∃ e ∈ es, e.1 = n.full_path ∧ parse e.2 = some d := by
  intro es
  induction es with
  | nil =>
    intro t n d h hd
    exact Or.inl ⟨n, h, rfl, hd⟩
  | cons e rest ih =>
    intro t n d h hd
    rw [List.foldl_cons] at h
    by_cases h1 : e.1 = "" ∨ e.1.data.getLast? = some '/'
    · rw [if_pos h1] at h
      rcases ih t n d h hd with hm | ⟨e2, he2, hp⟩
      · exact Or.inl hm
      · exact Or.inr ⟨e2, List.mem_cons_of_mem e he2, hp⟩
    · rw [if_neg h1] at h
      by_cases h2 : e.2 = []
      · rw [if_pos h2] at h
        rcases ih t n d h hd with hm | ⟨e2, he2, hp⟩
        · exact Or.inl hm
        · exact Or.inr ⟨e2, List.mem_cons_of_mem e he2, hp⟩
      · rw [if_neg h2] at h
        rcases ih _ n d h hd with ⟨m, hm1, hmp, hmd⟩ | ⟨e2, he2, hp⟩
        · rcases mem_addZipEntry_xml hm1 hmd with ⟨m2, hm2, hm2p, hm2d⟩ | ⟨hpp, hpd⟩
          · exact Or.inl ⟨m2, hm2, hm2p.trans hmp, hm2d⟩
          · exact Or.inr ⟨e, List.mem_cons_self e rest, hpp.symm.trans hmp, hpd⟩
        · exact Or.inr ⟨e2, List.mem_cons_of_mem e he2, hp⟩

theorem mem_loadTreeFromZip_xml {parse : List Nat → Option XmlDoc}
    {es : List (String × List Nat)} {n : Node} {d : XmlDoc}
    (h : n ∈ loadTreeFromZip parse es) (hd : n.xml_doc = some d) :
    ∃ e ∈ es, e.1 = n.full_path ∧ parse e.2 = some d := by
  rcases mem_loadTree_xml es [] n d h hd with ⟨m, hm, _⟩ | hm
  · exact absurd hm (List.not_mem_nil m)
  · exact hm

theorem paragraphsSeq_empty_of_no_body (impl : Impl)
    (h : ∀ d, getXmlPart impl "word/document.xml" = some d →
      xmlOptChild (xmlDocChild d "w:document") "w:body" = none) :
    paragraphsSeq impl = [] := by
  unfold paragraphsSeq
  cases ho : impl.is_open_ with
  | false => rfl
  | true =>
    cases hg : getXmlPart impl "word/document.xml" with
    | none => rfl
    | some d =>
      have hb := h d hg
      show (match xmlOptChild (xmlDocChild d "w:document") "w:body" with
        | none => ([] : List Xml)
        | some body => iterSeq body.childList "w:p") = []
      cases hx : xmlOptChild (xmlDocChild d "w:document") "w:body" with
      | none => rfl
      | some body => exact Option.noConfusion (hb.symm.trans hx)

theorem tablesSeq_empty_of_no_body (impl : Impl)
    (h : ∀ d, getXmlPart impl "word/document.xml" = some d →
      xmlOptChild (xmlDocChild d "w:document") "w:body" = none) :
    tablesSeq impl = [] := by
  unfold tablesSeq
  cases ho : impl.is_open_ with
  | false => rfl
  | true =>
    cases hg : getXmlPart impl "word/document.xml" with
    | none => rfl
    | some d =>
      have hb := h d hg
      show (match xmlOptChild (xmlDocChild d "w:document") "w:body" with
        | none => ([] : List Xml)
        | some body => iterSeq body.childList "w:tbl") = []
      cases hx : xmlOptChild (xmlDocChild d "w:document") "w:body" with
      | none => rfl
      | some body => exact Option.noConfusion (hb.symm.trans hx)

/-! ## Claim C3 -/

/-- C3 (counterexample): with an open document whose own path `a.docx`
exists on disk, a save over that same path in an environment where the final
rename throws ends with `save` failed and the original file at the
destination deleted — the filesystem is in neither the completed nor the
pre-call state, so save is not all-or-nothing. -/
theorem save_rename_failure_loses_original :
    (docSave { zipOpenWFails := false, writeFails := false, renameFails := true }
        [("a.docx", .raw [7])]
        { initImpl with is_open_ := true, filepath_ := "a.docx" } "a.docx").1 = false ∧
      fsLookup [("a.docx", .raw [7])] "a.docx" = some (.raw [7]) ∧
      fsLookup (docSave { zipOpenWFails := false, writeFails := false, renameFails := true }
        [("a.docx", .raw [7])]
        { initImpl with is_open_ := true, filepath_ := "a.docx" } "a.docx").2.1 "a.docx" =
        none :=
  ⟨rfl, rfl, rfl⟩

/-- C3 (amended): when `save_to_zip` fails while building the new archive
(the temp archive cannot be created, or writing an entry fails), the
temporary file is discarded and the file at the destination path is left
unchanged — and the same holds through `Document::save`.  (Save is however
not all-or-nothing in general: when the final rename throws while saving
over the document's own existing path, the original has already been
deleted; see the counterexample.) -/
theorem save_build_failure_leaves_destination (env : Env) (fs : FS) (impl : Impl)
    (out : String) (h : env.zipOpenWFails = true ∨ env.writeFails = true) :
    (saveToZip env fs impl out).1 = false ∧
      fsLookup (saveToZip env fs impl out).2 out = fsLookup fs out ∧
      ((saveToZip env fs impl out).2 = fs ∨
        (saveToZip env fs impl out).2 = fsRemove fs (out ++ ".tmp")) ∧
      (impl.is_open_ = true →
        (docSave env fs impl out).1 = false ∧
          fsLookup (docSave env fs impl out).2.1 out = fsLookup fs out) := by
  have hout : out ≠ out ++ ".tmp" := self_ne_append_tmp out
  have hmain : ∀ impl2 : Impl, (saveToZip env fs impl2 out).1 = false ∧
      fsLookup (saveToZip env fs impl2 out).2 out = fsLookup fs out ∧
      ((saveToZip env fs impl2 out).2 = fs ∨
        (saveToZip env fs impl2 out).2 = fsRemove fs (out ++ ".tmp")) := by
    intro impl2
    by_cases hw : env.zipOpenWFails = true
    · unfold saveToZip
      rw [if_pos hw]
      exact ⟨rfl, rfl, Or.inl rfl⟩
    · have hwr : env.writeFails = true := by
        rcases h with h | h
        · exact absurd h hw
        · exact h
      unfold saveToZip
      rw [if_neg hw, if_pos hwr]
      refine ⟨rfl, ?_, Or.inr (fsRemove_fsSet fs (out ++ ".tmp") _)⟩
      rw [fsRemove_fsSet fs (out ++ ".tmp") _]
      exact fsLookup_fsRemove_ne fs out (out ++ ".tmp") hout
  refine ⟨(hmain impl).1, (hmain impl).2.1, (hmain impl).2.2, ?_⟩
  intro hopen
  have hm2 := hmain (savePrePass impl)
  simp only [docSave, hopen, Bool.not_true, Bool.false_eq_true, if_false]
  simp only [show updateContentTypesXml
      (impl.relationships_.foldl (fun acc kv => updateRelationshipsXml acc kv.1) impl) =
      savePrePass impl from rfl]
  rw [if_neg (by simp [hm2.1])]
  exact ⟨rfl, hm2.2.1⟩

/-- Witness for the C3 theorem at a concrete failing environment. -/
theorem save_build_failure_leaves_destination_witness :
    (({ zipOpenWFails := true, writeFails := false, renameFails := false } : Env).zipOpenWFails
        = true ∨
      ({ zipOpenWFails := true, writeFails := false, renameFails := false } : Env).writeFails
        = true) ∧
      ((saveToZip { zipOpenWFails := true, writeFails := false, renameFails := false }
          [("b.docx", .raw [1])] initImpl "b.docx").1 = false ∧
        fsLookup (saveToZip { zipOpenWFails := true, writeFails := false, renameFails := false }
          [("b.docx", .raw [1])] initImpl "b.docx").2 "b.docx" =
          fsLookup [("b.docx", .raw [1])] "b.docx" ∧
        ((saveToZip { zipOpenWFails := true, writeFails := false, renameFails := false }
            [("b.docx", .raw [1])] initImpl "b.docx").2 = [("b.docx", .raw [1])] ∨
          (saveToZip { zipOpenWFails := true, writeFails := false, renameFails := false }
            [("b.docx", .raw [1])] initImpl "b.docx").2 =
            fsRemove [("b.docx", .raw [1])] ("b.docx" ++ ".tmp")) ∧
        (initImpl.is_open_ = true →
          (docSave { zipOpenWFails := true, writeFails := false, renameFails := false }
            [("b.docx", .raw [1])] initImpl "b.docx").1 = false ∧
            fsLookup (docSave { zipOpenWFails := true, writeFails := false, renameFails := false }
              [("b.docx", .raw [1])] initImpl "b.docx").2.1 "b.docx" =
              fsLookup [("b.docx", .raw [1])] "b.docx")) :=
  ⟨Or.inl rfl,
    save_build_failure_leaves_destination
      { zipOpenWFails := true, writeFails := false, renameFails := false }
      [("b.docx", .raw [1])] initImpl "b.docx" (Or.inl rfl)⟩

/-! ## Claim C5 -/

/-- C5: for every file node `n` present in the tree of an open document,
`remove(n.path)` returns true; after a successful `save()` the saved archive
contains no entry named `n.path`, and `n.path` does not appear in
`get_all_part_names()` of a document reopened from the saved archive;
`remove(path)` returns false when `path` is absent. -/
theorem removed_node_absent_after_save_and_reopen
    (parse : List Nat → Option XmlDoc) (fs : FS) (impl anyImpl : Impl) (out : String)
    (hopen : impl.is_open_ = true) (n : Node) (hn : n ∈ impl.tree_) :
    (removeNode impl.tree_ n.full_path).1 = true ∧
      ((docSave envOk fs { impl with tree_ := (removeNode impl.tree_ n.full_path).2 } out).1
          = true ∧
        ∃ entries, fsLookup
            (docSave envOk fs { impl with tree_ := (removeNode impl.tree_ n.full_path).2 }
              out).2.1 out = some (.zipArchive entries) ∧
          n.full_path ∉ entries.map Prod.fst ∧
          n.full_path ∉ getAllPartNames (docOpen parse
            (docSave envOk fs { impl with tree_ := (removeNode impl.tree_ n.full_path).2 }
              out).2.1 anyImpl out)) ∧
      (∀ q, findNode impl.tree_ q = none → (removeNode impl.tree_ q).1 = false) := by
  have hfind : (findNode impl.tree_ n.full_path).isSome = true :=
    List.find?_isSome.mpr ⟨n, hn, by simp⟩
  obtain ⟨m, hm⟩ := Option.isSome_iff_exists.mp hfind
  have hrem := removeNode_found hm
  have htomb : Tombstoned (removeNode impl.tree_ n.full_path).2 n.full_path := by
    rw [hrem]
    exact tombstoned_removeNode hfind
  have himpl1 : ({ impl with tree_ := (removeNode impl.tree_ n.full_path).2 } : Impl).is_open_
      = true := hopen
  have hsave := docSave_envOk fs { impl with tree_ := (removeNode impl.tree_ n.full_path).2 }
    out himpl1
  have htomb2 : Tombstoned
      (savePrePass { impl with tree_ := (removeNode impl.tree_ n.full_path).2 }).tree_
      n.full_path := tombstoned_savePrePass htomb
  have hnotsaved := tombstoned_not_saved htomb2
  refine ⟨by rw [hrem], ⟨hsave.1, ?_⟩, ?_⟩
  · refine ⟨saveTreeEntries
        (savePrePass { impl with tree_ := (removeNode impl.tree_ n.full_path).2 }).tree_,
      hsave.2, hnotsaved, ?_⟩
    intro hmem
    obtain ⟨t_eq, _⟩ := docOpen_zip parse _ anyImpl out _ hsave.2
    obtain ⟨m2, hm2, hm2p⟩ := mem_getAllPartNames hmem
    rw [t_eq] at hm2
    obtain ⟨e, he, hep⟩ := mem_loadTreeFromZip_path hm2
    refine hnotsaved ?_
    rw [List.mem_map]
    exact ⟨e, he, by rw [← hep, hm2p]⟩
  · intro q hq
    unfold removeNode
    rw [hq]

/-- Witness for the C5 theorem at a concrete open document. -/
theorem removed_node_absent_after_save_and_reopen_witness :
    ({ initImpl with is_open_ := true, tree_ := [newNode "word/extra.xml" .XmlFile] } :
        Impl).is_open_ = true ∧
      newNode "word/extra.xml" DocxNodeType.XmlFile ∈
        ({ initImpl with is_open_ := true, tree_ := [newNode "word/extra.xml" .XmlFile] } :
          Impl).tree_ ∧
      (removeNode ({ initImpl with
          is_open_ := true,
          tree_ := [newNode "word/extra.xml" DocxNodeType.XmlFile] } : Impl).tree_
        (newNode "word/extra.xml" DocxNodeType.XmlFile).full_path).1 = true := by
  have h := removed_node_absent_after_save_and_reopen (fun _ => none) []
    { initImpl with is_open_ := true, tree_ := [newNode "word/extra.xml" .XmlFile] }
    initImpl "o.docx" rfl (newNode "word/extra.xml" .XmlFile)
    (List.mem_cons_self _ _)
  exact ⟨rfl, List.mem_cons_self _ _, h.1⟩

/-! ## Claim C7 -/

/-- C7: ingesting an entry whose path is classified as XML (`.xml` or
`.rels`) but whose bytes fail XML parsing yields a node of kind
`BinaryFile` holding the raw bytes; the operation still returns that node,
which sits in the tree at the entry path, so archive ingestion does not
fail because of the malformed part. -/
theorem malformed_xml_entry_downgraded_to_binary
    (parse : List Nat → Option XmlDoc) (t : Tree) (p : String) (data : List Nat)
    (hcls : classify p = .XmlFile) (hparse : parse data = none) :
    (addZipEntry parse t p data).2.ntype = .BinaryFile ∧
      (addZipEntry parse t p data).2.binary_data = data ∧
      findNode (addZipEntry parse t p data).1 p = some (addZipEntry parse t p data).2 := by
  have hpath : ∀ m : Node, (payloadUpdate parse (classify p) data m).full_path = m.full_path :=
    fun m => payloadUpdate_path parse (classify p) data m
  cases hf : findNode t p with
  | some m =>
    have h1 : (addZipEntry parse t p data).1 =
        updateNode t p (payloadUpdate parse (classify p) data) := by
      simp only [addZipEntry]
      rw [findOrCreateNode_found hf]
    have h2 : findNode (addZipEntry parse t p data).1 p =
        some (payloadUpdate parse (classify p) data m) := by
      rw [h1, findNode_updateNode_self p _ hpath, hf]
      rfl
    have h3 : (addZipEntry parse t p data).2 = payloadUpdate parse (classify p) data m := by
      show ((findNode (addZipEntry parse t p data).1 p).getD _) = _
      rw [h2]
      rfl
    refine ⟨?_, ?_, ?_⟩
    · rw [h3, hcls, payloadUpdate_xml_none m hparse]
    · rw [h3, hcls, payloadUpdate_xml_none m hparse]
    · rw [h2, h3]
  | none =>
    have h1 : (addZipEntry parse t p data).1 =
        updateNode (t ++ [newNode p (classify p)]) p (payloadUpdate parse (classify p) data) := by
      simp only [addZipEntry]
      rw [findOrCreateNode_absent hf]
    have hfind2 : findNode (t ++ [newNode p (classify p)]) p =
        some (newNode p (classify p)) := by
      rw [findNode_append, hf]
      unfold findNode
      rw [List.find?_cons_of_pos _ (by simp [newNode])]
      rfl
    have h2 : findNode (addZipEntry parse t p data).1 p =
        some (payloadUpdate parse (classify p) data (newNode p (classify p))) := by
      rw [h1, findNode_updateNode_self p _ hpath, hfind2]
      rfl
    have h3 : (addZipEntry parse t p data).2 =
        payloadUpdate parse (classify p) data (newNode p (classify p)) := by
      show ((findNode (addZipEntry parse t p data).1 p).getD _) = _
      rw [h2]
      rfl
    refine ⟨?_, ?_, ?_⟩
    · rw [h3, hcls, payloadUpdate_xml_none _ hparse]
    · rw [h3, hcls, payloadUpdate_xml_none _ hparse]
    · rw [h2, h3]

/-- Witness for the C7 theorem at a concrete malformed XML part. -/
theorem malformed_xml_entry_downgraded_to_binary_witness :
    classify "word/bad.xml" = DocxNodeType.XmlFile ∧
      ((fun _ : List Nat => (none : Option XmlDoc)) [60]) = none ∧
      ((addZipEntry (fun _ => none) [] "word/bad.xml" [60]).2.ntype = .BinaryFile ∧
        (addZipEntry (fun _ => none) [] "word/bad.xml" [60]).2.binary_data = [60] ∧
        findNode (addZipEntry (fun _ => none) [] "word/bad.xml" [60]).1 "word/bad.xml" =
          some (addZipEntry (fun _ => none) [] "word/bad.xml" [60]).2) :=
  ⟨by decide, rfl,
    malformed_xml_entry_downgraded_to_binary (fun _ => none) [] "word/bad.xml" [60]
      (by decide) rfl⟩

/-! ## Claim C9 -/

/-- C9: for every XML-part path `p` present in the tree of a document,
`remove_xml_part(p)` sets exactly the node's tombstone flag (the node at `p`
afterwards is the old node with `is_deleted := true`) and trims the
bookkeeping containers: immediately afterwards `has_xml_part(p)` is still
true and `p` still appears in `get_all_part_names()`; every tree node keeps
its path, type, payload and modification flags, nodes at other paths are
untouched, and the other document state (filepath, open flag, relationship
and content-type indices, media cache) is unchanged — even though the part
is excluded from the next save: the tree serializer emits no entry named
`p`, and a subsequent successful `save()` of the open document produces an
archive with no entry named `p`. -/
theorem remove_xml_part_keeps_node_visible (impl : Impl) (p : String) (n : Node)
    (hn : findNode impl.tree_ p = some n) (hty : n.ntype = .XmlFile) :
    hasXmlPart (removeXmlPart impl p) p = true ∧
      p ∈ getAllPartNames (removeXmlPart impl p) ∧
      (removeXmlPart impl p).tree_.map
          (fun m => (m.full_path, m.ntype, m.xml_doc, m.binary_data, m.content_type,
            m.is_modified, m.is_new)) =
        impl.tree_.map
          (fun m => (m.full_path, m.ntype, m.xml_doc, m.binary_data, m.content_type,
            m.is_modified, m.is_new)) ∧
      (∀ m ∈ (removeXmlPart impl p).tree_, m.full_path ≠ p → m ∈ impl.tree_) ∧
      (removeXmlPart impl p).filepath_ = impl.filepath_ ∧
      (removeXmlPart impl p).is_open_ = impl.is_open_ ∧
      (removeXmlPart impl p).relationships_ = impl.relationships_ ∧
      (removeXmlPart impl p).content_types_ = impl.content_types_ ∧
      (removeXmlPart impl p).media_files_cache_ = impl.media_files_cache_ ∧
      findNode (removeXmlPart impl p).tree_ p = some { n with is_deleted := true } ∧
      p ∉ (saveTreeEntries (removeXmlPart impl p).tree_).map Prod.fst ∧
      (∀ fs out, impl.is_open_ = true →
        (docSave envOk fs (removeXmlPart impl p) out).1 = true ∧
          ∃ entries, fsLookup (docSave envOk fs (removeXmlPart impl p) out).2.1 out =
              some (.zipArchive entries) ∧
            p ∉ entries.map Prod.fst) := by
  have hf : ∀ m : Node, (({ m with is_deleted := true } : Node)).full_path = m.full_path :=
    fun m => rfl
  have htree : (removeXmlPart impl p).tree_ =
      updateNode impl.tree_ p (fun x => { x with is_deleted := true }) := rfl
  have hfind : findNode (removeXmlPart impl p).tree_ p = some { n with is_deleted := true } := by
    rw [htree, findNode_updateNode_self p _ hf, hn]
    rfl
  have htomb : Tombstoned (removeXmlPart impl p).tree_ p := by
    rw [htree]
    exact tombstoned_removeNode (by rw [hn]; rfl)
  refine ⟨?_, ?_, ?_, ?_, rfl, rfl, rfl, rfl, rfl, hfind, tombstoned_not_saved htomb, ?_⟩
  · unfold hasXmlPart
    rw [hfind]
    simpa using hty
  · unfold getAllPartNames
    rw [List.mem_filterMap]
    refine ⟨{ n with is_deleted := true }, ?_, ?_⟩
    · exact (findNode_mem hfind).1
    · rw [if_pos (by simpa using hty)]
      rw [show ({ n with is_deleted := true } : Node).full_path = n.full_path from rfl]
      rw [(findNode_mem hn).2]
  · rw [htree]
    unfold updateNode
    rw [List.map_map]
    apply List.map_congr_left
    intro m _
    simp only [Function.comp_apply]
    by_cases hq : m.full_path = p
    · rw [if_pos hq]
    · rw [if_neg hq]
  · intro m hm hmp
    rw [htree] at hm
    obtain ⟨n0, hn0, he⟩ := mem_updateNode hm
    by_cases hq : n0.full_path = p
    · rw [he, if_pos hq] at hmp ⊢
      exact absurd hq (by simpa using hmp)
    · rw [he, if_neg hq]
      exact hn0
  · intro fs out hopen
    have hopen2 : (removeXmlPart impl p).is_open_ = true := hopen
    have hsave := docSave_envOk fs (removeXmlPart impl p) out hopen2
    exact ⟨hsave.1, saveTreeEntries (savePrePass (removeXmlPart impl p)).tree_, hsave.2,
      tombstoned_not_saved (tombstoned_savePrePass htomb)⟩

/-- Witness for the C9 theorem at a concrete open document. -/
theorem remove_xml_part_keeps_node_visible_witness :
    findNode ({ initImpl with is_open_ := true, tree_ := [newNode "word/styles.xml" .XmlFile] } :
          Impl).tree_
        "word/styles.xml" = some (newNode "word/styles.xml" .XmlFile) ∧
      (newNode "word/styles.xml" DocxNodeType.XmlFile).ntype = .XmlFile ∧
      hasXmlPart (removeXmlPart
        { initImpl with is_open_ := true, tree_ := [newNode "word/styles.xml" .XmlFile] }
        "word/styles.xml") "word/styles.xml" = true ∧
      "word/styles.xml" ∈ getAllPartNames
        (removeXmlPart
          { initImpl with is_open_ := true, tree_ := [newNode "word/styles.xml" .XmlFile] }
          "word/styles.xml") ∧
      findNode (removeXmlPart
          { initImpl with is_open_ := true, tree_ := [newNode "word/styles.xml" .XmlFile] }
          "word/styles.xml").tree_ "word/styles.xml" =
        some { newNode "word/styles.xml" .XmlFile with is_deleted := true } ∧
      "word/styles.xml" ∉ (saveTreeEntries (removeXmlPart
          { initImpl with is_open_ := true, tree_ := [newNode "word/styles.xml" .XmlFile] }
          "word/styles.xml").tree_).map Prod.fst ∧
      ((docSave envOk [] (removeXmlPart
            { initImpl with is_open_ := true, tree_ := [newNode "word/styles.xml" .XmlFile] }
            "word/styles.xml") "o.docx").1 = true ∧
        ∃ entries, fsLookup (docSave envOk [] (removeXmlPart
              { initImpl with is_open_ := true, tree_ := [newNode "word/styles.xml" .XmlFile] }
              "word/styles.xml") "o.docx").2.1 "o.docx" =
            some (.zipArchive entries) ∧
          "word/styles.xml" ∉ entries.map Prod.fst) := by
  have h := remove_xml_part_keeps_node_visible
    { initImpl with is_open_ := true, tree_ := [newNode "word/styles.xml" .XmlFile] }
    "word/styles.xml" (newNode "word/styles.xml" .XmlFile) rfl rfl
  exact ⟨rfl, rfl, h.1, h.2.1, h.2.2.2.2.2.2.2.2.2.1, h.2.2.2.2.2.2.2.2.2.2.1,
    h.2.2.2.2.2.2.2.2.2.2.2 [] "o.docx" rfl⟩

/-! ## Media-manager lemmas -/

theorem bool_ne_true_of_eq_false {b : Bool} (h : b = false) : ¬(b = true) := by
  rw [h]
  simp

theorem updateNode_append_right (t : Tree) (m : Node) (p : String) (f : Node → Node)
    (hp : ∀ n ∈ t, n.full_path ≠ p) :
    updateNode (t ++ [m]) p f = t ++ [if m.full_path = p then f m else m] := by
  unfold updateNode
  rw [List.map_append]
  congr 1
  calc t.map (fun n => if n.full_path = p then f n else n) = t.map id := by
        apply List.map_congr_left
        intro n hn
        rw [if_neg (hp n hn)]
        rfl
    _ = t := List.map_id t

theorem updateNode_comp (t : Tree) (p : String) (f g : Node → Node)
    (hf : ∀ n, (f n).full_path = n.full_path) :
    updateNode (updateNode t p f) p g = updateNode t p (fun n => g (f n)) := by
  unfold updateNode
  rw [List.map_map]
  apply List.map_congr_left
  intro n _
  simp only [Function.comp_apply]
  by_cases h : n.full_path = p <;> simp [h, hf n]

theorem hasMedia_some (impl : Impl) (nm : String) (n : Node)
    (hopen : impl.is_open_ = true)
    (h : findNode impl.tree_ ("word/media/" ++ nm) = some n) :
    hasMedia impl nm = !n.is_deleted := by
  unfold hasMedia
  rw [hopen, h]
  rfl

theorem hasMedia_none (impl : Impl) (nm : String)
    (h : findNode impl.tree_ ("word/media/" ++ nm) = none) :
    hasMedia impl nm = false := by
  unfold hasMedia
  by_cases hopen : impl.is_open_ = true
  · rw [hopen, h]
    rfl
  · rw [Bool.not_eq_true] at hopen
    rw [hopen]
    rfl

theorem generateUniqueAux_stop (impl : Impl) (stem ext : String) (fuel : Nat)
    (name : String) (counter : Nat) (h : hasMedia impl name = false) :
    generateUniqueAux impl stem ext (fuel + 1) name counter = name := by
  simp only [generateUniqueAux, h, Bool.false_eq_true, if_false]

theorem generateUniqueAux_step (impl : Impl) (stem ext : String) (fuel : Nat)
    (name : String) (counter : Nat) (h : hasMedia impl name = true) :
    generateUniqueAux impl stem ext (fuel + 1) name counter =
      generateUniqueAux impl stem ext fuel
        (stem ++ "_" ++ String.mk (natToDec counter) ++ ext) (counter + 1) := by
  simp only [generateUniqueAux, h, if_true]

theorem implRemoveRelationship_fields (i : Impl) (a b : String) :
    (implRemoveRelationship i a b).tree_ = i.tree_ ∧
      (implRemoveRelationship i a b).is_open_ = i.is_open_ := by
  unfold implRemoveRelationship
  split
  · exact ⟨rfl, rfl⟩
  · split
    · exact ⟨rfl, rfl⟩
    · exact ⟨rfl, rfl⟩

theorem deleteMediaRels_fields (impl1 : Impl) (nm : String) :
    (deleteMediaRels impl1 nm).tree_ = impl1.tree_ ∧
      (deleteMediaRels impl1 nm).is_open_ = impl1.is_open_ := by
  unfold deleteMediaRels
  by_cases h : implFindRelationshipId impl1 "word/_rels/document.xml.rels"
      ("media/" ++ nm) ≠ ""
  · rw [if_pos h]
    exact implRemoveRelationship_fields impl1 _ _
  · rw [if_neg h]
    exact ⟨rfl, rfl⟩

theorem deleteMediaFinish_fields (impl1 : Impl) (nm : String) :
    (deleteMediaFinish impl1 nm).tree_ = impl1.tree_ ∧
      (deleteMediaFinish impl1 nm).is_open_ = impl1.is_open_ := by
  unfold deleteMediaFinish
  exact ⟨(deleteMediaRels_fields impl1 nm).1, (deleteMediaRels_fields impl1 nm).2⟩

theorem deleteMedia_found (impl : Impl) (nm : String) (n : Node)
    (hopen : impl.is_open_ = true)
    (hfind : findNode impl.tree_ ("word/media/" ++ nm) = some n) :
    (deleteMedia impl nm).1 = true ∧
      (deleteMedia impl nm).2.tree_ =
        updateNode impl.tree_ ("word/media/" ++ nm) (fun x => { x with is_deleted := true }) ∧
      (deleteMedia impl nm).2.is_open_ = true := by
  have heq : deleteMedia impl nm =
      (true, deleteMediaFinish
        { impl with tree_ := updateNode impl.tree_ ("word/media/" ++ nm) fun x => { x with is_deleted := true } } nm) := by
    unfold deleteMedia
    rw [hopen, hfind]
    rfl
  rw [heq]
  refine ⟨rfl, (deleteMediaFinish_fields _ nm).1, ?_⟩
  rw [(deleteMediaFinish_fields _ nm).2]
  exact hopen

theorem addMediaName_absent (impl : Impl) (f0 : String)
    (h : findNode impl.tree_ ("word/media/" ++ f0) = none) :
    addMediaName impl f0 = f0 := by
  unfold addMediaName
  rw [h]
  rfl

theorem addMediaName_present (impl : Impl) (f0 : String)
    (h : (findNode impl.tree_ ("word/media/" ++ f0)).isSome = true) :
    addMediaName impl f0 = generateUniqueImageName impl f0 := by
  unfold addMediaName
  rw [if_pos h]

theorem addMedia_success (impl : Impl) (src : SourceFile) (nm : String) (data : List Nat)
    (hopen : impl.is_open_ = true) (hsrc : src.contents = some data) (hdata : data ≠ [])
    (hfmt : validateImageFormat src.path = true) (hnm : nm ≠ "") :
    addMedia impl src (some nm) =
      (true, mediaIngest impl ("word/media/" ++ addMediaName impl nm) data
        (getMimeType (addMediaName impl nm))) := by
  unfold addMedia
  rw [hopen, hsrc]
  simp only [Bool.not_true, Bool.false_eq_true, if_false, Option.isNone_some,
    Option.getD_some, hfmt]
  rw [if_neg hdata]
  rw [show addMediaFilename0 src (some nm) = nm by
    unfold addMediaFilename0
    show (if nm = "" then filenameOf src.path else nm) = nm
    rw [if_neg hnm]]

theorem addMediaFromMemory_success (impl : Impl) (nm : String) (data : List Nat)
    (ct : String) (hopen : impl.is_open_ = true) (hdata : data ≠ []) :
    addMediaFromMemory impl nm data ct =
      (true, mediaIngest impl ("word/media/" ++ nm) data
        (if ct = "" then getMimeType nm else ct)) := by
  unfold addMediaFromMemory
  rw [hopen]
  simp only [Bool.not_true, Bool.false_eq_true, if_false]
  rw [if_neg hdata]

theorem mediaIngest_tree_absent (impl : Impl) (p : String) (data : List Nat) (ct : String)
    (h : findNode impl.tree_ p = none) :
    (mediaIngest impl p data ct).tree_ =
      impl.tree_ ++ [{ newNode p .MediaFile with binary_data := data, content_type := ct, is_new := true, is_modified := true }] := by
  have hp := findNode_eq_none_iff.mp h
  show updateNode (addMediaFile impl.tree_ p data ct) p
      (fun n => { n with is_new := true, is_modified := true }) = _
  unfold addMediaFile
  rw [findOrCreateNode_absent h]
  rw [updateNode_append_right _ _ _ _ hp]
  rw [if_pos (show (newNode p DocxNodeType.MediaFile).full_path = p from rfl)]
  rw [updateNode_append_right _ _ _ _ hp]
  rw [if_pos (show ({ newNode p DocxNodeType.MediaFile with binary_data := data, content_type := ct } : Node).full_path = p from rfl)]

theorem mediaIngest_tree_present (impl : Impl) (p : String) (data : List Nat) (ct : String)
    (n : Node) (h : findNode impl.tree_ p = some n) :
    (mediaIngest impl p data ct).tree_ =
      updateNode impl.tree_ p (fun x => { x with binary_data := data, content_type := ct, is_new := true, is_modified := true }) := by
  show updateNode (addMediaFile impl.tree_ p data ct) p
      (fun n => { n with is_new := true, is_modified := true }) = _
  unfold addMediaFile
  rw [findOrCreateNode_found h]
  rw [updateNode_comp impl.tree_ p
    (fun n => { n with binary_data := data, content_type := ct })
    (fun n => { n with is_new := true, is_modified := true })
    (fun _ => rfl)]

theorem mediaIngest_is_open (impl : Impl) (p : String) (data : List Nat) (ct : String) :
    (mediaIngest impl p data ct).is_open_ = impl.is_open_ := rfl

/-! ## Claim C10 -/

/-- C10: a tombstone is never cleared by the media-add paths: after
`delete_media(name)`, a later `add_media` (or `add_media_from_memory`) whose
destination resolves to the same `word/media` path overwrites the tombstoned
node's payload and returns `true`, yet the node remains deleted, so
`has_media(name)` stays `false` and the part is still excluded from the next
save. -/
theorem deleted_media_stays_deleted
    (impl : Impl) (src : SourceFile) (nm : String) (data : List Nat) (n0 : Node)
    (hopen : impl.is_open_ = true) (hsrc : src.contents = some data) (hdata : data ≠ [])
    (hfmt : validateImageFormat src.path = true) (hnm : nm ≠ "")
    (hfind : findNode impl.tree_ ("word/media/" ++ nm) = some n0) :
    (deleteMedia impl nm).1 = true ∧
      (addMedia (deleteMedia impl nm).2 src (some nm)).1 = true ∧
      findNode (addMedia (deleteMedia impl nm).2 src (some nm)).2.tree_
        ("word/media/" ++ nm) =
        some { n0 with binary_data := data, content_type := getMimeType nm, is_modified := true, is_new := true, is_deleted := true } ∧
      hasMedia (addMedia (deleteMedia impl nm).2 src (some nm)).2 nm = false ∧
      ("word/media/" ++ nm) ∉
        (saveTreeEntries (addMedia (deleteMedia impl nm).2 src (some nm)).2.tree_).map
          Prod.fst ∧
      (addMediaFromMemory (deleteMedia impl nm).2 nm data "image/png").1 = true ∧
      hasMedia (addMediaFromMemory (deleteMedia impl nm).2 nm data "image/png").2 nm
        = false ∧
      ("word/media/" ++ nm) ∉
        (saveTreeEntries
          (addMediaFromMemory (deleteMedia impl nm).2 nm data "image/png").2.tree_).map
          Prod.fst := by
  have hdel := deleteMedia_found impl nm n0 hopen hfind
  have hopen1 : (deleteMedia impl nm).2.is_open_ = true := hdel.2.2
  have hfind1 : findNode (deleteMedia impl nm).2.tree_ ("word/media/" ++ nm) =
      some { n0 with is_deleted := true } := by
    rw [hdel.2.1, findNode_updateNode_self ("word/media/" ++ nm)
      (fun x => { x with is_deleted := true }) (fun _ => rfl), hfind]
    rfl
  have hsome1 : (findNode (deleteMedia impl nm).2.tree_ ("word/media/" ++ nm)).isSome
      = true := by
    rw [hfind1]
    rfl
  have htombd : Tombstoned (deleteMedia impl nm).2.tree_ ("word/media/" ++ nm) := by
    rw [hdel.2.1]
    exact tombstoned_removeNode (by rw [hfind]; rfl)
  have hmed1 : hasMedia (deleteMedia impl nm).2 nm = false := by
    rw [hasMedia_some _ nm _ hopen1 hfind1]
    rfl
  have hgen : generateUniqueImageName (deleteMedia impl nm).2 nm = nm := by
    unfold generateUniqueImageName
    exact generateUniqueAux_stop _ _ _ _ _ _ hmed1
  have hname : addMediaName (deleteMedia impl nm).2 nm = nm := by
    rw [addMediaName_present _ _ hsome1, hgen]
  have hadd := addMedia_success (deleteMedia impl nm).2 src nm data hopen1 hsrc hdata
    hfmt hnm
  rw [hname] at hadd
  have htree2 : (addMedia (deleteMedia impl nm).2 src (some nm)).2.tree_ =
      updateNode (deleteMedia impl nm).2.tree_ ("word/media/" ++ nm)
        (fun x => { x with binary_data := data, content_type := getMimeType nm, is_new := true, is_modified := true }) := by
    rw [hadd]
    exact mediaIngest_tree_present _ _ _ _ _ hfind1
  have hopen2 : (addMedia (deleteMedia impl nm).2 src (some nm)).2.is_open_ = true := by
    rw [hadd]
    exact hopen1
  have hfind2 : findNode (addMedia (deleteMedia impl nm).2 src (some nm)).2.tree_
      ("word/media/" ++ nm) =
      some { n0 with binary_data := data, content_type := getMimeType nm, is_modified := true, is_new := true, is_deleted := true } := by
    rw [htree2, findNode_updateNode_self ("word/media/" ++ nm)
      (fun x => { x with binary_data := data, content_type := getMimeType nm, is_new := true, is_modified := true }) (fun _ => rfl), hfind1]
    rfl
  have htomb2 : Tombstoned (addMedia (deleteMedia impl nm).2 src (some nm)).2.tree_
      ("word/media/" ++ nm) := by
    rw [htree2]
    exact tombstoned_updateNode (fun _ => ⟨rfl, rfl⟩) htombd
  have haddm := addMediaFromMemory_success (deleteMedia impl nm).2 nm data "image/png"
    hopen1 hdata
  have htree3 : (addMediaFromMemory (deleteMedia impl nm).2 nm data "image/png").2.tree_ =
      updateNode (deleteMedia impl nm).2.tree_ ("word/media/" ++ nm)
        (fun x => { x with binary_data := data, content_type := (if ("image/png" : String) = "" then getMimeType nm else "image/png"), is_new := true, is_modified := true }) := by
    rw [haddm]
    exact mediaIngest_tree_present _ _ _ _ _ hfind1
  have hopen3 : (addMediaFromMemory (deleteMedia impl nm).2 nm data "image/png").2.is_open_
      = true := by
    rw [haddm]
    exact hopen1
  have hfind3 : findNode
      (addMediaFromMemory (deleteMedia impl nm).2 nm data "image/png").2.tree_
      ("word/media/" ++ nm) =
      some { n0 with binary_data := data, content_type := (if ("image/png" : String) = "" then getMimeType nm else "image/png"), is_modified := true, is_new := true, is_deleted := true } := by
    rw [htree3, findNode_updateNode_self ("word/media/" ++ nm)
      (fun x => { x with binary_data := data, content_type := (if ("image/png" : String) = "" then getMimeType nm else "image/png"), is_new := true, is_modified := true }) (fun _ => rfl), hfind1]
    rfl
  have htomb3 : Tombstoned
      (addMediaFromMemory (deleteMedia impl nm).2 nm data "image/png").2.tree_
      ("word/media/" ++ nm) := by
    rw [htree3]
    exact tombstoned_updateNode (fun _ => ⟨rfl, rfl⟩) htombd
  refine ⟨hdel.1, by rw [hadd], hfind2, ?_, tombstoned_not_saved htomb2,
    by rw [haddm], ?_, tombstoned_not_saved htomb3⟩
  · rw [hasMedia_some _ nm _ hopen2 hfind2]
    rfl
  · rw [hasMedia_some _ nm _ hopen3 hfind3]
    rfl

/-- Witness for the C10 theorem at a concrete state with one live media
node. -/
theorem deleted_media_stays_deleted_witness :
    ({ initImpl with is_open_ := true, tree_ := [{ newNode "word/media/x.jpg" DocxNodeType.MediaFile with binary_data := [9] }] } : Impl).is_open_ = true ∧
      (deleteMedia { initImpl with is_open_ := true, tree_ := [{ newNode "word/media/x.jpg" DocxNodeType.MediaFile with binary_data := [9] }] } "x.jpg").1 = true ∧
      (addMedia (deleteMedia { initImpl with is_open_ := true, tree_ := [{ newNode "word/media/x.jpg" DocxNodeType.MediaFile with binary_data := [9] }] } "x.jpg").2
        ⟨"a.jpg", some [1, 2]⟩ (some "x.jpg")).1 = true ∧
      hasMedia (addMedia (deleteMedia { initImpl with is_open_ := true, tree_ := [{ newNode "word/media/x.jpg" DocxNodeType.MediaFile with binary_data := [9] }] } "x.jpg").2
        ⟨"a.jpg", some [1, 2]⟩ (some "x.jpg")).2 "x.jpg" = false := by
  have h := deleted_media_stays_deleted
    { initImpl with is_open_ := true, tree_ := [{ newNode "word/media/x.jpg" DocxNodeType.MediaFile with binary_data := [9] }] }
    ⟨"a.jpg", some [1, 2]⟩ "x.jpg" [1, 2]
    { newNode "word/media/x.jpg" DocxNodeType.MediaFile with binary_data := [9] }
    rfl rfl (by decide) (by decide) (by decide) rfl
  exact ⟨rfl, h.1, h.2.1, h.2.2.2.1⟩

/-! ## Claim C8 -/

/-- C8: calling `add_media` twice in one session with the same destination
name `x.jpg` (fresh in the document, with `x_1.jpg` also unoccupied, as in a
fresh session) produces two distinct media paths — `word/media/x.jpg` and
`word/media/x_1.jpg`, the deduplicated name formed by appending `_<counter>`
before the extension — and both names appear in `list_media()`. -/
theorem add_media_same_name_twice_dedups
    (impl : Impl) (src : SourceFile) (data : List Nat)
    (hopen : impl.is_open_ = true) (hsrc : src.contents = some data) (hdata : data ≠ [])
    (hfmt : validateImageFormat src.path = true)
    (h1 : findNode impl.tree_ "word/media/x.jpg" = none)
    (h2 : findNode impl.tree_ "word/media/x_1.jpg" = none) :
    (addMedia impl src (some "x.jpg")).1 = true ∧
      (addMedia (addMedia impl src (some "x.jpg")).2 src (some "x.jpg")).1 = true ∧
      "x.jpg" ∈
        listMedia (addMedia (addMedia impl src (some "x.jpg")).2 src (some "x.jpg")).2 ∧
      "x_1.jpg" ∈
        listMedia (addMedia (addMedia impl src (some "x.jpg")).2 src (some "x.jpg")).2 ∧
      ("x.jpg" : String) ≠ "x_1.jpg" := by
  have h1' : findNode impl.tree_ ("word/media/" ++ "x.jpg") = none := h1
  have h2' : findNode impl.tree_ ("word/media/" ++ "x_1.jpg") = none := h2
  have hname1 : addMediaName impl "x.jpg" = "x.jpg" := addMediaName_absent impl "x.jpg" h1'
  have hadd1 := addMedia_success impl src "x.jpg" data hopen hsrc hdata hfmt (by decide)
  rw [hname1] at hadd1
  have htree1 : (addMedia impl src (some "x.jpg")).2.tree_ =
      impl.tree_ ++ [{ newNode ("word/media/" ++ "x.jpg") DocxNodeType.MediaFile with binary_data := data, content_type := getMimeType "x.jpg", is_new := true, is_modified := true }] := by
    rw [hadd1]
    exact mediaIngest_tree_absent impl _ data _ h1'
  have hopen1 : (addMedia impl src (some "x.jpg")).2.is_open_ = true := by
    rw [hadd1]
    exact hopen
  have hfindx : findNode (addMedia impl src (some "x.jpg")).2.tree_
      ("word/media/" ++ "x.jpg") =
      some { newNode ("word/media/" ++ "x.jpg") DocxNodeType.MediaFile with binary_data := data, content_type := getMimeType "x.jpg", is_new := true, is_modified := true } := by
    rw [htree1, findNode_append, h1', Option.none_or]
    unfold findNode
    rw [List.find?_cons_of_pos _ (by rfl)]
  have hsome : (findNode (addMedia impl src (some "x.jpg")).2.tree_
      ("word/media/" ++ "x.jpg")).isSome = true := by
    rw [hfindx]
    rfl
  have hfindnone2 : findNode (addMedia impl src (some "x.jpg")).2.tree_
      ("word/media/" ++ "x_1.jpg") = none := by
    rw [htree1, findNode_append, h2', Option.none_or]
    unfold findNode
    rw [List.find?_cons_of_neg _ (bool_ne_true_of_eq_false rfl)]
    rfl
  have hmedx : hasMedia (addMedia impl src (some "x.jpg")).2 "x.jpg" = true := by
    rw [hasMedia_some _ "x.jpg" _ hopen1 hfindx]
    rfl
  have hmedx1 : hasMedia (addMedia impl src (some "x.jpg")).2 "x_1.jpg" = false :=
    hasMedia_none _ _ hfindnone2
  have hgen1 : generateUniqueImageName (addMedia impl src (some "x.jpg")).2 "x.jpg" =
      "x_1.jpg" := by
    unfold generateUniqueImageName
    have hlen : (addMedia impl src (some "x.jpg")).2.tree_.length =
        impl.tree_.length + 1 := by
      rw [htree1]
      simp
    rw [hlen]
    rw [generateUniqueAux_step _ _ _ _ _ _ hmedx]
    rw [show (stemOf "x.jpg" ++ "_" ++ String.mk (natToDec 1) ++ extensionOf "x.jpg") =
      "x_1.jpg" from rfl]
    exact generateUniqueAux_stop _ _ _ _ _ _ hmedx1
  have hname2 : addMediaName (addMedia impl src (some "x.jpg")).2 "x.jpg" = "x_1.jpg" := by
    rw [addMediaName_present _ _ hsome, hgen1]
  have hadd2 := addMedia_success (addMedia impl src (some "x.jpg")).2 src "x.jpg" data
    hopen1 hsrc hdata hfmt (by decide)
  rw [hname2] at hadd2
  have htree2 : (addMedia (addMedia impl src (some "x.jpg")).2 src (some "x.jpg")).2.tree_ =
      (addMedia impl src (some "x.jpg")).2.tree_ ++
        [{ newNode ("word/media/" ++ "x_1.jpg") DocxNodeType.MediaFile with binary_data := data, content_type := getMimeType "x_1.jpg", is_new := true, is_modified := true }] := by
    rw [hadd2]
    exact mediaIngest_tree_absent _ _ data _ hfindnone2
  refine ⟨by rw [hadd1], by rw [hadd2], ?_, ?_, by decide⟩
  · unfold listMedia
    rw [List.mem_filterMap]
    refine ⟨{ newNode ("word/media/" ++ "x.jpg") DocxNodeType.MediaFile with binary_data := data, content_type := getMimeType "x.jpg", is_new := true, is_modified := true }, ?_, ?_⟩
    · rw [htree2, htree1]
      exact List.mem_append_left _ (List.mem_append_right _ (List.mem_singleton.mpr rfl))
    · rw [if_pos ⟨rfl, rfl, rfl⟩]
      rfl
  · unfold listMedia
    rw [List.mem_filterMap]
    refine ⟨{ newNode ("word/media/" ++ "x_1.jpg") DocxNodeType.MediaFile with binary_data := data, content_type := getMimeType "x_1.jpg", is_new := true, is_modified := true }, ?_, ?_⟩
    · rw [htree2]
      exact List.mem_append_right _ (List.mem_singleton.mpr rfl)
    · rw [if_pos ⟨rfl, rfl, rfl⟩]
      rfl

/-- Witness for the C8 theorem on an open empty document. -/
theorem add_media_same_name_twice_dedups_witness :
    ({ initImpl with is_open_ := true } : Impl).is_open_ = true ∧
      (addMedia { initImpl with is_open_ := true } ⟨"a.jpg", some [1, 2]⟩
        (some "x.jpg")).1 = true ∧
      (addMedia (addMedia { initImpl with is_open_ := true } ⟨"a.jpg", some [1, 2]⟩
        (some "x.jpg")).2 ⟨"a.jpg", some [1, 2]⟩ (some "x.jpg")).1 = true ∧
      "x.jpg" ∈ listMedia (addMedia (addMedia { initImpl with is_open_ := true }
        ⟨"a.jpg", some [1, 2]⟩ (some "x.jpg")).2 ⟨"a.jpg", some [1, 2]⟩
        (some "x.jpg")).2 ∧
      "x_1.jpg" ∈ listMedia (addMedia (addMedia { initImpl with is_open_ := true }
        ⟨"a.jpg", some [1, 2]⟩ (some "x.jpg")).2 ⟨"a.jpg", some [1, 2]⟩
        (some "x.jpg")).2 := by
  have h := add_media_same_name_twice_dedups { initImpl with is_open_ := true }
    ⟨"a.jpg", some [1, 2]⟩ [1, 2] rfl rfl (by decide) (by decide) rfl rfl
  exact ⟨rfl, h.1, h.2.1, h.2.2.1, h.2.2.2.1⟩

/-! ## Claim C1 -/

/-- C1 (counterexample): opening a readable ZIP archive that contains no
`word/document.xml` leaves the document in the OPEN state — `is_open()`
reports true, contradicting the claim that a missing main document part
results in the Closed state. -/
theorem open_without_main_part_reports_open :
    (docOpen (fun _ => none) [("f.docx", .zipArchive [("foo.txt", [1])])] initImpl
        "f.docx").is_open_ = true ∧
      findNode (docOpen (fun _ => none) [("f.docx", .zipArchive [("foo.txt", [1])])] initImpl
        "f.docx").tree_ "word/document.xml" = none :=
  ⟨rfl, rfl⟩

/-- C1 (amended): `open(path)` ends in the Closed state (with
`paragraphs()`/`tables()` empty and crash-free) exactly when the path does
not name a readable ZIP archive; when the archive opens, the document
reports OPEN, and whenever the main document part is missing (no archive
entry named `word/document.xml`), unparseable (every such entry fails the
XML parse), or lacks its root/body elements (every parse of such an entry
yields a document whose `w:document`/`w:body` lookup is the null node),
`paragraphs()` and `tables()` still return an empty, crash-free iterator. -/
theorem open_state_and_empty_iterators
    (parse : List Nat → Option XmlDoc) (fs : FS) (impl : Impl) (path : String) :
    ((∀ es, fsLookup fs path ≠ some (.zipArchive es)) →
      (docOpen parse fs impl path).is_open_ = false ∧
        paragraphsSeq (docOpen parse fs impl path) = [] ∧
        tablesSeq (docOpen parse fs impl path) = []) ∧
      (∀ es, fsLookup fs path = some (.zipArchive es) →
        (docOpen parse fs impl path).is_open_ = true ∧
          (((∀ e ∈ es, e.1 ≠ "word/document.xml") ∨
              (∀ e ∈ es, e.1 = "word/document.xml" → parse e.2 = none) ∨
              (∀ e ∈ es, e.1 = "word/document.xml" → ∀ d, parse e.2 = some d →
                xmlOptChild (xmlDocChild d "w:document") "w:body" = none)) →
            paragraphsSeq (docOpen parse fs impl path) = [] ∧
              tablesSeq (docOpen parse fs impl path) = [])) := by
  constructor
  · intro h
    have heq : docOpen parse fs impl path = { closeDoc impl with filepath_ := path } := by
      unfold docOpen
      cases hl : fsLookup fs path with
      | none => rfl
      | some d =>
        cases d with
        | raw b => rfl
        | zipArchive es => exact absurd hl (h es)
    rw [heq]
    exact ⟨rfl, rfl, rfl⟩
  · intro es hl
    obtain ⟨htree, hopen⟩ := docOpen_zip parse fs impl path es hl
    refine ⟨hopen, ?_⟩
    intro hcase
    have hkey : ∀ e ∈ es, e.1 = "word/document.xml" → ∀ d, parse e.2 = some d →
        xmlOptChild (xmlDocChild d "w:document") "w:body" = none := by
      rcases hcase with hc | hc | hc
      · intro e he hep d hd
        exact absurd hep (hc e he)
      · intro e he hep d hd
        rw [hc e he hep] at hd
        exact Option.noConfusion hd
      · exact hc
    have hbody : ∀ d, getXmlPart (docOpen parse fs impl path) "word/document.xml" = some d →
        xmlOptChild (xmlDocChild d "w:document") "w:body" = none := by
      intro d hg
      unfold getXmlPart at hg
      cases hfn : findNode (docOpen parse fs impl path).tree_ "word/document.xml" with
      | none =>
        rw [hfn] at hg
        exact Option.noConfusion hg
      | some m =>
        rw [hfn] at hg
        have hg2 : m.xml_doc = some d := hg
        have hmem := (findNode_mem hfn).1
        have hpathm := (findNode_mem hfn).2
        rw [htree] at hmem
        obtain ⟨e, he, hep, hpd⟩ := mem_loadTreeFromZip_xml hmem hg2
        exact hkey e he (by rw [hep, hpathm]) d hpd
    exact ⟨paragraphsSeq_empty_of_no_body _ hbody, tablesSeq_empty_of_no_body _ hbody⟩

/-- Witness for the C1 theorem: a non-ZIP file stays Closed with empty
iterators; a ZIP without the main part opens with empty iterators; so does a
ZIP whose `word/document.xml` fails the XML parse, and one whose
`word/document.xml` parses to a document without `w:document`/`w:body`. -/
theorem open_state_and_empty_iterators_witness :
    ((docOpen (fun _ => none) [("nz.txt", .raw [1])] initImpl "nz.txt").is_open_ = false ∧
        paragraphsSeq (docOpen (fun _ => none) [("nz.txt", .raw [1])] initImpl "nz.txt") = [] ∧
        tablesSeq (docOpen (fun _ => none) [("nz.txt", .raw [1])] initImpl "nz.txt") = []) ∧
      ((docOpen (fun _ => none) [("f.docx", .zipArchive [("foo.txt", [1])])] initImpl
          "f.docx").is_open_ = true ∧
        (paragraphsSeq (docOpen (fun _ => none) [("f.docx", .zipArchive [("foo.txt", [1])])]
            initImpl "f.docx") = [] ∧
          tablesSeq (docOpen (fun _ => none) [("f.docx", .zipArchive [("foo.txt", [1])])]
            initImpl "f.docx") = [])) ∧
      ((docOpen (fun _ => none) [("g.docx", .zipArchive [("word/document.xml", [5])])] initImpl
          "g.docx").is_open_ = true ∧
        (paragraphsSeq (docOpen (fun _ => none)
            [("g.docx", .zipArchive [("word/document.xml", [5])])] initImpl "g.docx") = [] ∧
          tablesSeq (docOpen (fun _ => none)
            [("g.docx", .zipArchive [("word/document.xml", [5])])] initImpl "g.docx") = [])) ∧
      ((docOpen (fun _ => some []) [("h.docx", .zipArchive [("word/document.xml", [5])])]
          initImpl "h.docx").is_open_ = true ∧
        (paragraphsSeq (docOpen (fun _ => some [])
            [("h.docx", .zipArchive [("word/document.xml", [5])])] initImpl "h.docx") = [] ∧
          tablesSeq (docOpen (fun _ => some [])
            [("h.docx", .zipArchive [("word/document.xml", [5])])] initImpl "h.docx") = [])) := by
  have h1 := (open_state_and_empty_iterators (fun _ => none) [("nz.txt", .raw [1])]
    initImpl "nz.txt").1 (by
      intro es h
      rw [show fsLookup [("nz.txt", FileData.raw [1])] "nz.txt" = some (.raw [1]) from rfl] at h
      simp at h)
  have h2 := (open_state_and_empty_iterators (fun _ => none)
    [("f.docx", .zipArchive [("foo.txt", [1])])] initImpl "f.docx").2 [("foo.txt", [1])] rfl
  have h3 := (open_state_and_empty_iterators (fun _ => none)
    [("g.docx", .zipArchive [("word/document.xml", [5])])] initImpl "g.docx").2
    [("word/document.xml", [5])] rfl
  have h4 := (open_state_and_empty_iterators (fun _ => some [])
    [("h.docx", .zipArchive [("word/document.xml", [5])])] initImpl "h.docx").2
    [("word/document.xml", [5])] rfl
  refine ⟨h1, ⟨h2.1, h2.2 (Or.inl (by decide))⟩,
    ⟨h3.1, h3.2 (Or.inr (Or.inl (fun e he hep => rfl)))⟩,
    ⟨h4.1, h4.2 (Or.inr (Or.inr ?_))⟩⟩
  intro e he hep d hd
  have hd2 : some ([] : XmlDoc) = some d := hd
  injection hd2 with h5
  rw [← h5]
  rfl

/-! ## Claim C4 -/

/-- C4 (counterexample): with `content_types_` holding the Default
`xml → application/xml` and a tree holding only the live node
`word/foo.xml` — a node that has a matching Default and no Override — the
rebuilt `[Content_Types].xml` nevertheless contains a synthesized Override
for `/word/foo.xml`: Overrides are not synthesized "exactly for those nodes
lacking any matching Default or Override". -/
theorem override_synthesized_despite_matching_default :
    specHasMatchingDefault [⟨"xml", "", "application/xml", true⟩] "word/foo.xml" = true ∧
      ([⟨"xml", "", "application/xml", true⟩] : List ContentType).any
        (fun ct => !ct.is_default ∧ ct.part_name = "/word/foo.xml") = false ∧
      CTEntry.Override "/word/foo.xml" "application/xml" ∈
        updateContentTypesEntries [⟨"xml", "", "application/xml", true⟩]
          [newNode "word/foo.xml" .XmlFile] := by
  decide

/-- C4 (amended): the rebuilt `[Content_Types].xml` payload is regenerated
from the in-memory Default/Override lists, and the tree walk synthesizes a
best-guess Override for every walked file node (tombstoned or not, and
regardless of any matching Default) other than `[Content_Types].xml` itself
that lacks a matching Override; consequently after `save()` every file
node's path other than `[Content_Types].xml` — in particular every live
one — carries an Override, hence a resolvable content type. -/
theorem every_walked_node_has_override
    (cts : List ContentType) (t : Tree) (n : Node) (hn : n ∈ t)
    (hne : n.full_path ≠ "[Content_Types].xml") :
    ∃ ct, CTEntry.Override ("/" ++ n.full_path) ct ∈ updateContentTypesEntries cts t := by
  by_cases hov : cts.any (fun ct => !ct.is_default ∧ ct.part_name = "/" ++ n.full_path) = true
  · rw [List.any_eq_true] at hov
    obtain ⟨ct, hct, hcond⟩ := hov
    simp only [Bool.and_eq_true, Bool.not_eq_true', decide_eq_true_eq] at hcond
    refine ⟨ct.content_type, ?_⟩
    unfold updateContentTypesEntries
    rw [List.mem_append]
    left
    rw [List.mem_append]
    right
    unfold overridesSection
    rw [List.mem_filterMap]
    refine ⟨ct, hct, ?_⟩
    rw [if_pos (by rw [hcond.1]; rfl), hcond.2]
  · refine ⟨synthContentType n, ?_⟩
    unfold updateContentTypesEntries
    rw [List.mem_append]
    right
    unfold synthSection
    rw [List.mem_filterMap]
    refine ⟨n, hn, ?_⟩
    rw [if_neg hne, if_neg hov]

/-- Witness for the C4 theorem: a tombstoned media node with no matching
Override still receives a synthesized one. -/
theorem every_walked_node_has_override_witness :
    ({ mediaNode "p.png" [1] with is_deleted := true } : Node) ∈
        [({ mediaNode "p.png" [1] with is_deleted := true } : Node)] ∧
      ({ mediaNode "p.png" [1] with is_deleted := true } : Node).full_path ≠
        "[Content_Types].xml" ∧
      ∃ ct, CTEntry.Override
          ("/" ++ ({ mediaNode "p.png" [1] with is_deleted := true } : Node).full_path) ct ∈
        updateContentTypesEntries []
          [({ mediaNode "p.png" [1] with is_deleted := true } : Node)] :=
  ⟨List.mem_cons_self _ _, by decide,
    every_walked_node_has_override [] _ _ (List.mem_cons_self _ _) (by decide)⟩

end Cdocx
